import Mathlib

/-!
# Servora refresh-token store

A shallow embedding of the refresh-token part of `authRepo`
(`app/servora/service/internal/data/auth.go`) and of the thin Redis wrapper it
calls (`pkg/redis/redis.go`), followed by theorems about the four token-store
operations.

* `strconv.FormatInt` / `strconv.ParseInt` are embedded as functions on lists of
  characters (base 10, bit size 64, the only instantiation the code uses).
* The Redis server behind `redis.Client` is a map from keys to entries;
  an entry is a string or a set, with an optional expiration.  Time does not
  pass inside the model: an expiration is the value recorded by the last command
  that set it.
* A cache call may fail for reasons outside the program (network, timeout,
  cancelled context).  This is the `fault` schedule of the client: the call
  number `calls` is looked up in it and a faulted call has no effect.
* Logging (`r.log.Errorf`, `r.log.Warnf`) has no effect on the results and is
  left out.
-/

namespace Servora

set_option autoImplicit false

/-! ## Errors -/

/-- The errors the token store can return: the three kinds of reply a cache call
can fail with and the two errors of `strconv.ParseInt`. -/
inductive Error where
  /-- The reply `redis.Nil`: the key does not exist. -/
  | Nil
  /-- The reply `WRONGTYPE`: the key holds a value of another kind. -/
  | WrongType
  /-- The call did not reach the server or did not come back. -/
  | Transient
  /-- The value `strconv.ErrSyntax`. -/
  | ErrSyn
  /-- The value `strconv.ErrRange`. -/
  | ErrRange
  deriving DecidableEq, Repr

/-! ## strconv -/

/-- The table `digits` of `strconv`, restricted to base 10. -/
def digits : Nat → Char
  | 0 => '0'
  | 1 => '1'
  | 2 => '2'
  | 3 => '3'
  | 4 => '4'
  | 5 => '5'
  | 6 => '6'
  | 7 => '7'
  | 8 => '8'
  | _ => '9'

/-- The digit loop of `strconv.formatBits` for base 10: the buffer is filled from
the right, one digit for each division by ten.  The loop runs while `u >= 10`;
the first argument bounds the number of iterations. -/
def formatBits : Nat → Nat → List Char → List Char
  | 0, _, a => a
  | fuel + 1, u, a =>
    if u < 10 then digits u :: a
    else formatBits fuel (u / 10) (digits (u % 10) :: a)

/-- The function `strconv.FormatInt(i, 10)`: digits of the magnitude, with a
leading minus sign for a negative number. -/
def FormatInt (i : Int) : String :=
  let u := i.natAbs
  let a := formatBits (u + 1) u []
  String.mk (if i < 0 then '-' :: a else a)

/-- The largest `uint64`. -/
def maxUint64 : Nat := 2 ^ 64 - 1

/-- The loop of `strconv.ParseUint(s, 10, 64)` over the bytes of `s`, `n` being
the value read so far.  The result is the pair `(value, err)` of the Go function.
-/
def parseUintLoop : List Char → Nat → Nat × Option Error
  | [], n => (n, none)
  | c :: cs, n =>
    if '0' ≤ c ∧ c ≤ '9' then
      let d := c.toNat - '0'.toNat
      if n ≥ maxUint64 / 10 + 1 then (maxUint64, some Error.ErrRange)
      else
        let n10 := n * 10 % 2 ^ 64
        let n1 := (n10 + d) % 2 ^ 64
        if n1 < n10 ∨ n1 > maxUint64 then (maxUint64, some Error.ErrRange)
        else parseUintLoop cs n1
    else (0, some Error.ErrSyn)

/-- The function `strconv.ParseUint(s, 10, 64)`. -/
def ParseUint (s : List Char) : Nat × Option Error :=
  match s with
  | [] => (0, some Error.ErrSyn)
  | _ => parseUintLoop s 0

/-- The function `strconv.ParseInt(s, 10, 64)`. -/
def ParseInt (s : String) : Except Error Int :=
  match s.data with
  | [] => Except.error Error.ErrSyn
  | c :: rest =>
    let neg := decide (c = '-')
    let body := if c = '+' ∨ c = '-' then rest else c :: rest
    match ParseUint body with
    | (_, some Error.ErrRange) => Except.error Error.ErrRange
    | (_, some err) => Except.error err
    | (un, none) =>
      let cutoff : Nat := 2 ^ 63
      if !neg ∧ un ≥ cutoff then Except.error Error.ErrRange
      else if neg ∧ un > cutoff then Except.error Error.ErrRange
      else Except.ok (if neg then -(un : Int) else (un : Int))

/-- The values of the Go type `int64`. -/
def isInt64 (i : Int) : Prop := -(2 : Int) ^ 63 ≤ i ∧ i < (2 : Int) ^ 63

instance (i : Int) : Decidable (isInt64 i) := by
  unfold isInt64; infer_instance

/-! ## The cache -/

/-- A value stored under a key: a string or a set of strings.  The members are
kept in the order `SMEMBERS` enumerates them. -/
inductive Value where
  | str (s : String)
  | set (members : List String)
  deriving DecidableEq, Repr

/-- An entry of the key space: the value and the expiration, in milliseconds,
`none` for a key that does not expire. -/
structure Entry where
  val : Value
  ttl : Option Nat
  deriving DecidableEq, Repr

/-- The client `redis.Client` together with the server it talks to. -/
structure Client where
  /-- The key space of the server. -/
  store : String → Option Entry
  /-- The calls that fail for a reason outside the program, by call number. -/
  fault : Nat → Bool
  /-- The number of calls made so far. -/
  calls : Nat

/-- One call has been made. -/
def Client.tick (c : Client) : Client := { c with calls := c.calls + 1 }

/-- The key space with `key` bound to `e`. -/
def Client.put (c : Client) (key : String) (e : Entry) : Client :=
  { c with store := fun k => if k = key then some e else c.store k }

/-- The key space without `key`. -/
def Client.drop (c : Client) (key : String) : Client :=
  { c with store := fun k => if k = key then none else c.store k }

/-- The constant `time.Millisecond`, in nanoseconds. -/
def Millisecond : Int := 1000000

/-- The constant `time.Second`, in nanoseconds. -/
def Second : Int := 1000000000

/-- The constant `redis.KeepTTL`. -/
def KeepTTL : Int := -1

/-- The helper `usePrecise` of the Redis client. -/
def usePrecise (dur : Int) : Bool := decide (dur < Second ∨ dur.tmod Second ≠ 0)

/-- The helper `formatMs` of the Redis client. -/
def formatMs (dur : Int) : Int :=
  if 0 < dur ∧ dur < Millisecond then 1 else dur.tdiv Millisecond

/-- The helper `formatSec` of the Redis client. -/
def formatSec (dur : Int) : Int :=
  if 0 < dur ∧ dur < Second then 1 else dur.tdiv Second

/-- The expiration `SET` records: `PX`/`EX` for a positive expiration, the old
one under `KEEPTTL` (`redis.KeepTTL`), none otherwise. -/
def setExpiry (old : Option Entry) (expiration : Int) : Option Nat :=
  if 0 < expiration then
    if usePrecise expiration then some (formatMs expiration).toNat
    else some ((formatSec expiration).toNat * 1000)
  else if expiration = KeepTTL then old.bind Entry.ttl
  else none

/-- The method `Client.Set`: `SET key value`, with `PX`/`EX` for a positive
expiration and `KEEPTTL` for `redis.KeepTTL`.  The key is overwritten whatever it
held. -/
def Client.Set (c : Client) (key value : String) (expiration : Int) :
    Client × Option Error :=
  if c.fault c.calls then (c.tick, some Error.Transient)
  else (c.tick.put key ⟨Value.str value, setExpiry (c.store key) expiration⟩, none)

/-- The method `Client.Get`: `GET key`. -/
def Client.Get (c : Client) (key : String) : Client × Except Error String :=
  if c.fault c.calls then (c.tick, Except.error Error.Transient)
  else
    match c.store key with
    | none => (c.tick, Except.error Error.Nil)
    | some ⟨Value.str s, _⟩ => (c.tick, Except.ok s)
    | some ⟨Value.set _, _⟩ => (c.tick, Except.error Error.WrongType)

/-- The method `Client.Del` with one key: `DEL key`. -/
def Client.Del (c : Client) (key : String) : Client × Option Error :=
  if c.fault c.calls then (c.tick, some Error.Transient)
  else (c.tick.drop key, none)

/-- A set with one more member; a member already present is not added again. -/
def addMember (ms : List String) (member : String) : List String :=
  if member ∈ ms then ms else ms ++ [member]

/-- The method `Client.SAdd` with one member: `SADD key member`.  A missing key
becomes a set without expiration; an existing set keeps its expiration. -/
def Client.SAdd (c : Client) (key member : String) : Client × Option Error :=
  if c.fault c.calls then (c.tick, some Error.Transient)
  else
    match c.store key with
    | none => (c.tick.put key ⟨Value.set [member], none⟩, none)
    | some ⟨Value.set ms, ttl⟩ => (c.tick.put key ⟨Value.set (addMember ms member), ttl⟩, none)
    | some ⟨Value.str _, _⟩ => (c.tick, some Error.WrongType)

/-- The method `Client.SMembers`: `SMEMBERS key`. -/
def Client.SMembers (c : Client) (key : String) : Client × Except Error (List String) :=
  if c.fault c.calls then (c.tick, Except.error Error.Transient)
  else
    match c.store key with
    | none => (c.tick, Except.ok [])
    | some ⟨Value.set ms, _⟩ => (c.tick, Except.ok ms)
    | some ⟨Value.str _, _⟩ => (c.tick, Except.error Error.WrongType)

/-- The method `Client.Expire`: `EXPIRE key seconds`.  A missing key is left
missing; a timeout that is not positive deletes the key. -/
def Client.Expire (c : Client) (key : String) (expiration : Int) : Client × Option Error :=
  if c.fault c.calls then (c.tick, some Error.Transient)
  else
    match c.store key with
    | none => (c.tick, none)
    | some e =>
      if formatSec expiration ≤ 0 then (c.tick.drop key, none)
      else (c.tick.put key { e with ttl := some ((formatSec expiration).toNat * 1000) }, none)

/-! ## The token store -/

/-- The key `fmt.Sprintf("refresh_token:%s", token)`. -/
def tokenKey (token : String) : String := "refresh_token:" ++ token

/-- The key `fmt.Sprintf("user_tokens:%d", userID)`. -/
def userTokensKey (userID : Int) : String := "user_tokens:" ++ FormatInt userID

/-- The method `authRepo.SaveRefreshToken`. -/
def SaveRefreshToken (r : Client) (userID : Int) (token : String) (expiration : Int) :
    Client × Option Error :=
  match r.Set (tokenKey token) (FormatInt userID) expiration with
  | (r1, some err) => (r1, some err)
  | (r1, none) =>
    match r1.SAdd (userTokensKey userID) token with
    | (r2, some err) => (r2, some err)
    | (r2, none) =>
      match r2.Expire (userTokensKey userID) expiration with
      | (r3, some err) => (r3, some err)
      | (r3, none) => (r3, none)

/-- The method `authRepo.GetRefreshToken`. -/
def GetRefreshToken (r : Client) (token : String) : Client × Except Error Int :=
  match r.Get (tokenKey token) with
  | (r1, Except.error err) => (r1, Except.error err)
  | (r1, Except.ok userIDStr) =>
    match ParseInt userIDStr with
    | Except.error err => (r1, Except.error err)
    | Except.ok userID => (r1, Except.ok userID)

/-- The loop of `authRepo.DeleteRefreshToken` that adds back every member of the
snapshot except `token`, stopping at the first failed call. -/
def reAdd (r : Client) (key token : String) : List String → Client × Option Error
  | [] => (r, none)
  | t :: ts =>
    if t ≠ token then
      match r.SAdd key t with
      | (r1, some err) => (r1, some err)
      | (r1, none) => reAdd r1 key token ts
    else reAdd r key token ts

/-- The method `authRepo.DeleteRefreshToken`. -/
def DeleteRefreshToken (r : Client) (token : String) : Client × Option Error :=
  match GetRefreshToken r token with
  | (r1, Except.error _) => (r1, none)
  | (r1, Except.ok userID) =>
    match r1.Del (tokenKey token) with
    | (r2, some err) => (r2, some err)
    | (r2, none) =>
      match r2.SMembers (userTokensKey userID) with
      | (r3, Except.error err) => (r3, some err)
      | (r3, Except.ok tokens) =>
        match r3.Del (userTokensKey userID) with
        | (r4, some err) => (r4, some err)
        | (r4, none) => reAdd r4 (userTokensKey userID) token tokens

/-- The loop of `authRepo.DeleteUserRefreshTokens` that deletes the forward entry
of every token of the snapshot, stopping at the first failed call. -/
def delTokens (r : Client) : List String → Client × Option Error
  | [] => (r, none)
  | token :: ts =>
    match r.Del (tokenKey token) with
    | (r1, some err) => (r1, some err)
    | (r1, none) => delTokens r1 ts

/-- The method `authRepo.DeleteUserRefreshTokens`. -/
def DeleteUserRefreshTokens (r : Client) (userID : Int) : Client × Option Error :=
  match r.SMembers (userTokensKey userID) with
  | (r1, Except.error err) => (r1, some err)
  | (r1, Except.ok tokens) =>
    match delTokens r1 tokens with
    | (r2, some err) => (r2, some err)
    | (r2, none) =>
      match r2.Del (userTokensKey userID) with
      | (r3, some err) => (r3, some err)
      | (r3, none) => (r3, none)

/-- The empty cache, on which no call fails. -/
def emptyCache : Client := { store := fun _ => none, fault := fun _ => false, calls := 0 }

/-! ## Observations, invariants and scenarios -/

/-- The members a set-valued entry lists; nothing for a missing key. -/
def membersOf : Option Entry → List String
  | some ⟨Value.set ms, _⟩ => ms
  | _ => []

/-- The entry, if any, is not a string. -/
def notStr (o : Option Entry) : Prop := ∀ s t, o ≠ some ⟨Value.str s, t⟩

/-- The client after the four calls `DeleteRefreshToken` makes before it rebuilds
the set of the owner. -/
def afterDeletes (r : Client) (token : String) (userID : Int) : Client :=
  ((((r.tick).tick.drop (tokenKey token)).tick).tick.drop (userTokensKey userID))

/-- The client after the `SET` and the `SADD` of `SaveRefreshToken`. -/
def afterSetAdd (r : Client) (userID : Int) (token : String) (ttl : Int) : Client :=
  ((r.tick.put (tokenKey token)
      ⟨Value.str (FormatInt userID), setExpiry (r.store (tokenKey token)) ttl⟩).tick.put
    (userTokensKey userID)
      ⟨Value.set (addMember (membersOf (r.store (userTokensKey userID))) token),
        (r.store (userTokensKey userID)).bind Entry.ttl⟩)

/-- The client after the three calls of a successful `SaveRefreshToken`. -/
def afterSave (r : Client) (userID : Int) (token : String) (ttl : Int) : Client :=
  if formatSec ttl ≤ 0 then (afterSetAdd r userID token ttl).tick.drop (userTokensKey userID)
  else (afterSetAdd r userID token ttl).tick.put (userTokensKey userID)
    ⟨Value.set (addMember (membersOf (r.store (userTokensKey userID))) token),
      some ((formatSec ttl).toNat * 1000)⟩

/-- The scenario of the specification: user 42 holds `tok-A` and `tok-B`, each
issued for one hour on the empty cache. -/
def twoTokens : Client :=
  (SaveRefreshToken (SaveRefreshToken emptyCache 42 "tok-A" (3600 * Second)).1 42 "tok-B"
    (3600 * Second)).1

/-- The scenario of property P3: token `A` issued to user 1 and token `B` issued
to user 2, each for one hour on the empty cache. -/
def twoUsers : Client :=
  (SaveRefreshToken (SaveRefreshToken emptyCache 1 "A" (3600 * Second)).1 2 "B"
    (3600 * Second)).1

/-- The order on expirations: `none` is a key that never expires. -/
def ttlLe : Option Nat → Option Nat → Prop
  | _, none => True
  | none, some _ => False
  | some x, some y => x ≤ y

instance (a b : Option Nat) : Decidable (ttlLe a b) := by
  cases a <;> cases b <;> unfold ttlLe <;> infer_instance

/-- Invariant I3: the expiration of the set of a user is at least the expiration
of every token the set lists. -/
def I3 (r : Client) : Prop :=
  ∀ (u : Int) (ms : List String) (e : Option Nat) (t s : String) (e' : Option Nat),
    isInt64 u → r.store (userTokensKey u) = some ⟨Value.set ms, e⟩ → t ∈ ms →
      r.store (tokenKey t) = some ⟨Value.str s, e'⟩ → ttlLe e' e

/-- The states reachable from the empty cache by successful `SaveRefreshToken`
calls with a positive `ttl`. -/
inductive Issued : Client → Prop where
  | empty : Issued emptyCache
  | save (r : Client) (userID : Int) (token : String) (ttl : Int) :
      Issued r → isInt64 userID → 0 < ttl →
      (SaveRefreshToken r userID token ttl).2 = none →
      Issued (SaveRefreshToken r userID token ttl).1

/-- User 1 is issued token `a` for 100 seconds and then token `b` for 10 seconds.
-/
def shorterSecond : Client :=
  (SaveRefreshToken (SaveRefreshToken emptyCache 1 "a" (100 * Second)).1 1 "b"
    (10 * Second)).1

/-- The states reachable from the empty cache by successful `SaveRefreshToken`
calls, each for a token not in the store, with a `ttl` that is a whole number of
seconds and at least the `ttl` of the call before.  The index is the `ttl`, in
seconds, of the last call. -/
inductive IssuedNonDecreasing : Nat → Client → Prop where
  | empty : IssuedNonDecreasing 0 emptyCache
  | save (m : Nat) (r : Client) (userID : Int) (token : String) (secs : Nat) :
      IssuedNonDecreasing m r → isInt64 userID → 0 < secs → m ≤ secs →
      r.store (tokenKey token) = none →
      (SaveRefreshToken r userID token ((secs : Int) * Second)).2 = none →
      IssuedNonDecreasing secs (SaveRefreshToken r userID token ((secs : Int) * Second)).1

/-- What holds of the states of `IssuedNonDecreasing`: every forward entry expires
within the last `ttl`, and every member of a set has a forward entry that expires
no later than the set. -/
def NonDecreasingInv (m : Nat) (r : Client) : Prop :=
  (∀ t e, r.store (tokenKey t) = some e →
    ∃ s x, e = ⟨Value.str s, some x⟩ ∧ x ≤ m * 1000) ∧
  (∀ u e, isInt64 u → r.store (userTokensKey u) = some e →
    ∃ ms x, e = ⟨Value.set ms, some x⟩ ∧
      ∀ t, t ∈ ms → ∃ s y, r.store (tokenKey t) = some ⟨Value.str s, some y⟩ ∧ y ≤ x)

/-- The client on which the call number `calls + k` fails and no other. -/
def failingCall (r : Client) (k : Nat) : Client :=
  { r with fault := fun n => decide (n = r.calls + k) }

/-- User 7 holds the tokens `t1`, `t2` and `t3`, each issued for one hour on the
empty cache. -/
def threeTokens : Client :=
  (SaveRefreshToken (SaveRefreshToken (SaveRefreshToken emptyCache 7 "t1" (3600 * Second)).1
    7 "t2" (3600 * Second)).1 7 "t3" (3600 * Second)).1

/-- A stored value that is not a decimal integer: the forward key of `bad` holds
the string `abc`. -/
def notDecimal : Client :=
  emptyCache.put (tokenKey "bad") ⟨Value.str "abc", none⟩

/-- Invariant I1: token `t` is listed in the set of user `u` exactly when the
forward index maps `t` to `u`. -/
def I1 (r : Client) : Prop :=
  ∀ (t : String) (u : Int), isInt64 u →
    ((∃ ms, (r.SMembers (userTokensKey u)).2 = Except.ok ms ∧ t ∈ ms) ↔
      (GetRefreshToken r t).2 = Except.ok u)

/-- What a lookup answers from the entry under the forward key. -/
def forwardOf : Option Entry → Except Error Int
  | none => Except.error Error.Nil
  | some ⟨Value.str s, _⟩ => ParseInt s
  | some ⟨Value.set _, _⟩ => Except.error Error.WrongType

/-! ## The operations as sequences of cache calls

Between two cache calls an operation holds only local values: the place it has
reached and what the earlier calls returned.  A step makes the next cache call of
the operation, or moves past a member of the snapshot that is not added back.
-/

/-- The place a call of `SaveRefreshToken` has reached. -/
inductive SavePc where
  /-- Before `Set`. -/
  | atSet
  /-- Before `SAdd`. -/
  | atSAdd
  /-- Before `Expire`. -/
  | atExpire
  /-- The call has returned `err`. -/
  | returned (err : Option Error)
  deriving DecidableEq, Repr

/-- One step of `SaveRefreshToken userID token expiration`. -/
def saveStep (userID : Int) (token : String) (expiration : Int) (r : Client) :
    SavePc → Client × SavePc
  | SavePc.atSet =>
    match r.Set (tokenKey token) (FormatInt userID) expiration with
    | (r1, some err) => (r1, SavePc.returned (some err))
    | (r1, none) => (r1, SavePc.atSAdd)
  | SavePc.atSAdd =>
    match r.SAdd (userTokensKey userID) token with
    | (r1, some err) => (r1, SavePc.returned (some err))
    | (r1, none) => (r1, SavePc.atExpire)
  | SavePc.atExpire =>
    match r.Expire (userTokensKey userID) expiration with
    | (r1, some err) => (r1, SavePc.returned (some err))
    | (r1, none) => (r1, SavePc.returned none)
  | SavePc.returned err => (r, SavePc.returned err)

/-- The place a call of `DeleteRefreshToken` has reached, with the local values
`userID` and `tokens` once they are known. -/
inductive DeletePc where
  /-- Before `GetRefreshToken`. -/
  | atGet
  /-- Before `Del` of the forward key. -/
  | atDelToken (userID : Int)
  /-- Before `SMembers`. -/
  | atSMembers (userID : Int)
  /-- Before `Del` of the set key; `tokens` is the snapshot. -/
  | atDelSet (userID : Int) (tokens : List String)
  /-- In the loop, `rest` being the members of the snapshot not yet visited. -/
  | atReAdd (userID : Int) (rest : List String)
  /-- The call has returned `err`. -/
  | returned (err : Option Error)
  deriving DecidableEq, Repr

/-- One step of `DeleteRefreshToken token`. -/
def deleteStep (token : String) (r : Client) : DeletePc → Client × DeletePc
  | DeletePc.atGet =>
    match GetRefreshToken r token with
    | (r1, Except.error _) => (r1, DeletePc.returned none)
    | (r1, Except.ok userID) => (r1, DeletePc.atDelToken userID)
  | DeletePc.atDelToken userID =>
    match r.Del (tokenKey token) with
    | (r1, some err) => (r1, DeletePc.returned (some err))
    | (r1, none) => (r1, DeletePc.atSMembers userID)
  | DeletePc.atSMembers userID =>
    match r.SMembers (userTokensKey userID) with
    | (r1, Except.error err) => (r1, DeletePc.returned (some err))
    | (r1, Except.ok tokens) => (r1, DeletePc.atDelSet userID tokens)
  | DeletePc.atDelSet userID tokens =>
    match r.Del (userTokensKey userID) with
    | (r1, some err) => (r1, DeletePc.returned (some err))
    | (r1, none) => (r1, DeletePc.atReAdd userID tokens)
  | DeletePc.atReAdd _ [] => (r, DeletePc.returned none)
  | DeletePc.atReAdd userID (t :: ts) =>
    if t ≠ token then
      match r.SAdd (userTokensKey userID) t with
      | (r1, some err) => (r1, DeletePc.returned (some err))
      | (r1, none) => (r1, DeletePc.atReAdd userID ts)
    else (r, DeletePc.atReAdd userID ts)
  | DeletePc.returned err => (r, DeletePc.returned err)

/-- The steps of `SaveRefreshToken` run one after the other, `n` of them. -/
def saveRun (userID : Int) (token : String) (expiration : Int) :
    Nat → Client × SavePc → Client × SavePc
  | 0, s => s
  | n + 1, s => saveRun userID token expiration n (saveStep userID token expiration s.1 s.2)

/-- The steps of `DeleteRefreshToken` run one after the other, `n` of them. -/
def deleteRun (token : String) : Nat → Client × DeletePc → Client × DeletePc
  | 0, s => s
  | n + 1, s => deleteRun token n (deleteStep token s.1 s.2)

/-- Whose step comes next when a `SaveRefreshToken` and a `DeleteRefreshToken`
run against the same cache. -/
inductive Turn where
  | save
  | delete
  deriving DecidableEq, Repr

/-- The cache and the two calls in progress. -/
structure Race where
  cache : Client
  save : SavePc
  delete : DeletePc

/-- One step of the call whose turn it is. -/
def raceStep (userID : Int) (t2 : String) (ttl : Int) (t1 : String) (s : Race) : Turn → Race
  | Turn.save =>
    { s with cache := (saveStep userID t2 ttl s.cache s.save).1,
             save := (saveStep userID t2 ttl s.cache s.save).2 }
  | Turn.delete =>
    { s with cache := (deleteStep t1 s.cache s.delete).1,
             delete := (deleteStep t1 s.cache s.delete).2 }

/-- An interleaving of `SaveRefreshToken userID t2 ttl` with
`DeleteRefreshToken t1`, from the cache `r`: the steps are taken in the order of
the schedule. -/
def race (userID : Int) (t2 : String) (ttl : Int) (t1 : String) (r : Client)
    (schedule : List Turn) : Race :=
  schedule.foldl (raceStep userID t2 ttl t1) ⟨r, SavePc.atSet, DeletePc.atGet⟩

/-- User 42 holds the live token `t1`, issued for one hour on the empty cache. -/
def oneToken : Client := (SaveRefreshToken emptyCache 42 "t1" (3600 * Second)).1

/-- The schedule in which `DeleteRefreshToken` takes its snapshot of the set,
`SaveRefreshToken` then runs from start to end, and `DeleteRefreshToken`
finishes. -/
def snapshotThenIssue : List Turn :=
  [Turn.delete, Turn.delete, Turn.delete, Turn.save, Turn.save, Turn.save,
    Turn.delete, Turn.delete, Turn.delete]

/-! ## Facts about strconv -/

theorem digits_spec (d : Nat) (h : d < 10) :
    ('0' ≤ digits d ∧ digits d ≤ '9') ∧ (digits d).toNat - '0'.toNat = d ∧
      digits d ≠ '+' ∧ digits d ≠ '-' := by
  interval_cases d <;> decide

theorem formatBits_acc (fuel u : Nat) (a : List Char) :
    formatBits fuel u a = formatBits fuel u [] ++ a := by
  induction fuel generalizing u a with
  | zero => simp [formatBits]
  | succ fuel ih =>
    unfold formatBits
    split
    · simp
    · rw [ih, ih (u / 10) [digits (u % 10)]]
      simp

theorem formatBits_head (fuel u : Nat) (a : List Char) :
    ∃ k cs, k < 10 ∧ formatBits (fuel + 1) u a = digits k :: cs := by
  induction fuel generalizing u a with
  | zero =>
    unfold formatBits
    split
    · exact ⟨u, a, by assumption, rfl⟩
    · exact ⟨u % 10, a, Nat.mod_lt _ (by decide), by simp [formatBits]⟩
  | succ fuel ih =>
    rw [formatBits]
    split
    · exact ⟨u, a, by assumption, rfl⟩
    · exact ih _ _

theorem parseUintLoop_append (cs ds : List Char) (n : Nat) :
    parseUintLoop (cs ++ ds) n =
      match parseUintLoop cs n with
      | (m, none) => parseUintLoop ds m
      | (m, some e) => (m, some e) := by
  induction cs generalizing n with
  | nil => simp [parseUintLoop]
  | cons c cs ih =>
    simp only [List.cons_append, parseUintLoop]
    split
    · split
      · rfl
      · split
        · rfl
        · exact ih _
    · rfl

theorem parseUintLoop_digit (n d : Nat) (hd : d < 10) (hn : n * 10 + d < 2 ^ 64) :
    parseUintLoop [digits d] n = (n * 10 + d, none) := by
  obtain ⟨h1, h2, -, -⟩ := digits_spec d hd
  have e1 : n * 10 % 2 ^ 64 = n * 10 := Nat.mod_eq_of_lt (by omega)
  have e2 : (n * 10 + d) % 2 ^ 64 = n * 10 + d := Nat.mod_eq_of_lt hn
  have h3 : ¬ (n ≥ maxUint64 / 10 + 1) := by
    simp only [maxUint64]; omega
  have h4 : ¬ (n * 10 + d < n * 10 ∨ n * 10 + d > maxUint64) := by
    simp only [maxUint64]; omega
  simp only [parseUintLoop, h1, and_self, if_true, h2, e1, e2, h3, h4, if_false]

theorem parseUintLoop_formatBits (fuel u : Nat) (hf : u < fuel) (hu : u < 2 ^ 64) :
    parseUintLoop (formatBits fuel u []) 0 = (u, none) := by
  induction fuel generalizing u with
  | zero => omega
  | succ fuel ih =>
    unfold formatBits
    split
    · rename_i h10
      have := parseUintLoop_digit 0 u h10 (by omega)
      simpa using this
    · rename_i h10
      rw [formatBits_acc, parseUintLoop_append, ih (u / 10) (by omega) (by omega)]
      have := parseUintLoop_digit (u / 10) (u % 10) (Nat.mod_lt _ (by decide)) (by omega)
      simp only [this]
      congr 1
      omega

/-- Parsing undoes formatting on every `int64`. -/
theorem ParseInt_FormatInt (i : Int) (h : isInt64 i) : ParseInt (FormatInt i) = Except.ok i := by
  obtain ⟨hlo, hhi⟩ := h
  obtain ⟨k, cs, hk, hhead⟩ := formatBits_head i.natAbs i.natAbs []
  obtain ⟨-, -, hplus, hminus⟩ := digits_spec k hk
  have hparse := parseUintLoop_formatBits (i.natAbs + 1) i.natAbs (by omega) (by omega)
  by_cases hneg : i < 0
  · have hdata : (FormatInt i).data = '-' :: formatBits (i.natAbs + 1) i.natAbs [] := by
      simp [FormatInt, hneg]
    have hU : ParseUint (formatBits (i.natAbs + 1) i.natAbs []) = (i.natAbs, none) := by
      rw [hhead] at hparse ⊢
      simpa [ParseUint] using hparse
    have h1 : ¬ (9223372036854775808 < i.natAbs) := by omega
    simp only [ParseInt, hdata]
    simp only [or_true, if_true, hU]
    simp [h1]
    rw [abs_of_neg hneg, neg_neg]
  · have hdata : (FormatInt i).data = digits k :: cs := by
      simp [FormatInt, hneg, hhead]
    have hU : ParseUint (digits k :: cs) = (i.natAbs, none) := by
      rw [hhead] at hparse
      simpa [ParseUint] using hparse
    have h1 : ¬ (9223372036854775808 ≤ i.natAbs) := by omega
    simp only [ParseInt, hdata]
    simp only [hplus, hminus, or_self, if_false, hU]
    simp [h1, hminus]
    exact not_lt.mp hneg

/-- A parsed value is an `int64`. -/
theorem ParseInt_isInt64 (s : String) (i : Int) (h : ParseInt s = Except.ok i) : isInt64 i := by
  unfold ParseInt at h
  cases hs : s.data with
  | nil => simp [hs] at h
  | cons c rest =>
    simp only [hs] at h
    generalize (if c = '+' ∨ c = '-' then rest else c :: rest) = body at h
    rcases hP : ParseUint body with ⟨un, _ | e⟩
    · simp only [hP] at h
      unfold isInt64
      by_cases hc : c = '-'
      · simp [hc] at h
        split at h
        · cases h
        · injection h with h
          omega
      · simp [hc] at h
        split at h
        · cases h
        · injection h with h
          omega
    · cases e <;> simp [hP] at h

theorem FormatInt_inj (u v : Int) (hu : isInt64 u) (hv : isInt64 v)
    (h : FormatInt u = FormatInt v) : u = v := by
  have h1 := ParseInt_FormatInt u hu
  rw [h, ParseInt_FormatInt v hv] at h1
  injection h1 with h1
  exact h1.symm

/-! ## Facts about keys -/

theorem tokenKey_inj (a b : String) : tokenKey a = tokenKey b ↔ a = b := by
  constructor
  · intro h
    have h1 := congrArg String.data h
    simp only [tokenKey, String.data_append] at h1
    exact String.ext (List.append_cancel_left h1)
  · rintro rfl; rfl

theorem userTokensKey_inj (u v : Int) (hu : isInt64 u) (hv : isInt64 v) :
    userTokensKey u = userTokensKey v ↔ u = v := by
  constructor
  · intro h
    have h1 := congrArg String.data h
    simp only [userTokensKey, String.data_append] at h1
    exact FormatInt_inj u v hu hv (String.ext (List.append_cancel_left h1))
  · rintro rfl; rfl

theorem tokenKey_ne_userTokensKey (t : String) (u : Int) : tokenKey t ≠ userTokensKey u := by
  intro h
  have h1 := congrArg String.data h
  simp only [tokenKey, userTokensKey, String.data_append] at h1
  have h2 := congrArg List.head? h1
  simp at h2

theorem userTokensKey_ne_tokenKey (u : Int) (t : String) : userTokensKey u ≠ tokenKey t :=
  fun h => tokenKey_ne_userTokensKey t u h.symm

/-! ## Facts about the cache calls -/

@[simp] theorem tick_store (c : Client) : c.tick.store = c.store := rfl

@[simp] theorem tick_fault (c : Client) : c.tick.fault = c.fault := rfl

@[simp] theorem tick_calls (c : Client) : c.tick.calls = c.calls + 1 := rfl

@[simp] theorem put_store (c : Client) (key : String) (e : Entry) (k : String) :
    (c.put key e).store k = if k = key then some e else c.store k := rfl

@[simp] theorem put_fault (c : Client) (key : String) (e : Entry) :
    (c.put key e).fault = c.fault := rfl

@[simp] theorem put_calls (c : Client) (key : String) (e : Entry) :
    (c.put key e).calls = c.calls := rfl

@[simp] theorem drop_store (c : Client) (key : String) (k : String) :
    (c.drop key).store k = if k = key then none else c.store k := rfl

@[simp] theorem drop_fault (c : Client) (key : String) : (c.drop key).fault = c.fault := rfl

@[simp] theorem drop_calls (c : Client) (key : String) : (c.drop key).calls = c.calls := rfl

/-- What `GetRefreshToken` answers when its cache call is not faulted depends on
the stored entry only. -/
theorem GetRefreshToken_result (r : Client) (token : String) (h : r.fault r.calls = false) :
    (GetRefreshToken r token).2 =
      match r.store (tokenKey token) with
      | none => Except.error Error.Nil
      | some ⟨Value.str s, _⟩ => ParseInt s
      | some ⟨Value.set _, _⟩ => Except.error Error.WrongType := by
  unfold GetRefreshToken Client.Get
  simp only [h, Bool.false_eq_true, if_false]
  rcases hs : r.store (tokenKey token) with _ | ⟨_ | _, _⟩
  · rfl
  · simp only
    rcases hp : ParseInt _ with e | v <;> rfl
  · rfl

/-! ### Frame facts: a call changes at most the key it names -/

theorem Set_fault (c : Client) (key value : String) (e : Int) :
    (c.Set key value e).1.fault = c.fault := by
  unfold Client.Set; split <;> rfl

theorem Set_calls (c : Client) (key value : String) (e : Int) :
    (c.Set key value e).1.calls = c.calls + 1 := by
  unfold Client.Set; split <;> rfl

theorem Set_other (c : Client) (key value : String) (e : Int) (k : String) (hk : k ≠ key) :
    (c.Set key value e).1.store k = c.store k := by
  unfold Client.Set; split <;> simp [hk]

theorem Set_self (c : Client) (key value : String) (e : Int)
    (h : (c.Set key value e).2 = none) :
    c.fault c.calls = false ∧
      ∃ t, (c.Set key value e).1.store key = some ⟨Value.str value, t⟩ := by
  unfold Client.Set at h ⊢
  by_cases h0 : c.fault c.calls
  · simp [h0] at h
  · simp [h0]

theorem Del_fault (c : Client) (key : String) : (c.Del key).1.fault = c.fault := by
  unfold Client.Del; split <;> rfl

theorem Del_calls (c : Client) (key : String) : (c.Del key).1.calls = c.calls + 1 := by
  unfold Client.Del; split <;> rfl

theorem Del_other (c : Client) (key k : String) (hk : k ≠ key) :
    (c.Del key).1.store k = c.store k := by
  unfold Client.Del; split <;> simp [hk]

theorem Del_self (c : Client) (key : String) (h : (c.Del key).2 = none) :
    c.fault c.calls = false ∧ (c.Del key).1.store key = none := by
  unfold Client.Del at h ⊢
  by_cases h0 : c.fault c.calls
  · simp [h0] at h
  · simp [h0]

theorem SAdd_fault (c : Client) (key m : String) : (c.SAdd key m).1.fault = c.fault := by
  unfold Client.SAdd
  split
  · rfl
  · split <;> rfl

theorem SAdd_calls (c : Client) (key m : String) : (c.SAdd key m).1.calls = c.calls + 1 := by
  unfold Client.SAdd
  split
  · rfl
  · split <;> rfl

theorem SAdd_other (c : Client) (key m k : String) (hk : k ≠ key) :
    (c.SAdd key m).1.store k = c.store k := by
  unfold Client.SAdd
  split
  · rfl
  · split <;> simp [hk]

theorem Expire_fault (c : Client) (key : String) (e : Int) :
    (c.Expire key e).1.fault = c.fault := by
  unfold Client.Expire
  split
  · rfl
  · split
    · rfl
    · split <;> rfl

theorem Expire_calls (c : Client) (key : String) (e : Int) :
    (c.Expire key e).1.calls = c.calls + 1 := by
  unfold Client.Expire
  split
  · rfl
  · split
    · rfl
    · split <;> rfl

theorem Expire_other (c : Client) (key : String) (e : Int) (k : String) (hk : k ≠ key) :
    (c.Expire key e).1.store k = c.store k := by
  unfold Client.Expire
  split
  · rfl
  · split
    · rfl
    · split <;> simp [hk]

theorem SMembers_state (c : Client) (key : String) : (c.SMembers key).1 = c.tick := by
  unfold Client.SMembers
  split
  · rfl
  · split <;> rfl

theorem Get_state (c : Client) (key : String) : (c.Get key).1 = c.tick := by
  unfold Client.Get
  split
  · rfl
  · split <;> rfl

theorem GetRefreshToken_state (r : Client) (token : String) :
    (GetRefreshToken r token).1 = r.tick := by
  unfold GetRefreshToken
  have := Get_state r (tokenKey token)
  rcases hg : r.Get (tokenKey token) with ⟨r1, e | s⟩
  · rw [hg] at this; exact this
  · rw [hg] at this
    simp only
    rcases ParseInt s with e | v <;> exact this

/-- A successful `SaveRefreshToken` made three calls, none of them faulted, and
left the forward entry of its token in the store. -/
theorem SaveRefreshToken_forward (r : Client) (userID : Int) (token : String) (ttl : Int)
    (h : (SaveRefreshToken r userID token ttl).2 = none) :
    (SaveRefreshToken r userID token ttl).1.fault = r.fault ∧
    (SaveRefreshToken r userID token ttl).1.calls = r.calls + 3 ∧
    ∃ e, (SaveRefreshToken r userID token ttl).1.store (tokenKey token)
      = some ⟨Value.str (FormatInt userID), e⟩ := by
  have hk := tokenKey_ne_userTokensKey token userID
  have a1 := Set_self r (tokenKey token) (FormatInt userID) ttl
  have a2 := Set_fault r (tokenKey token) (FormatInt userID) ttl
  have a3 := Set_calls r (tokenKey token) (FormatInt userID) ttl
  rcases hset : r.Set (tokenKey token) (FormatInt userID) ttl with ⟨r1, _ | e1⟩
  · rw [hset] at a1 a2 a3
    have b1 := SAdd_other r1 (userTokensKey userID) token (tokenKey token) hk
    have b2 := SAdd_fault r1 (userTokensKey userID) token
    have b3 := SAdd_calls r1 (userTokensKey userID) token
    rcases hadd : r1.SAdd (userTokensKey userID) token with ⟨r2, _ | e2⟩
    · rw [hadd] at b1 b2 b3
      have c1 := Expire_other r2 (userTokensKey userID) ttl (tokenKey token) hk
      have c2 := Expire_fault r2 (userTokensKey userID) ttl
      have c3 := Expire_calls r2 (userTokensKey userID) ttl
      rcases hexp : r2.Expire (userTokensKey userID) ttl with ⟨r3, _ | e3⟩
      · rw [hexp] at c1 c2 c3
        simp only [SaveRefreshToken, hset, hadd, hexp]
        simp only at a1 a2 a3 b1 b2 b3 c1 c2 c3
        obtain ⟨-, t, ht⟩ := a1 trivial
        refine ⟨by rw [c2, b2, a2], by rw [c3, b3, a3], t, ?_⟩
        rw [c1, b1, ht]
      · simp [SaveRefreshToken, hset, hadd, hexp] at h
    · simp [SaveRefreshToken, hset, hadd] at h
  · simp [SaveRefreshToken, hset] at h

/-! ### Calls on a client without faults -/

theorem Del_nf (c : Client) (key : String) (h : c.fault c.calls = false) :
    c.Del key = (c.tick.drop key, none) := by
  simp [Client.Del, h]

theorem SMembers_nf (c : Client) (key : String) (h : c.fault c.calls = false)
    (hs : notStr (c.store key)) :
    c.SMembers key = (c.tick, Except.ok (membersOf (c.store key))) := by
  unfold Client.SMembers
  simp only [h, Bool.false_eq_true, if_false]
  rcases hk : c.store key with _ | ⟨_ | ms, t⟩
  · rfl
  · exact absurd hk (hs _ _)
  · rfl

theorem SMembers_str (c : Client) (key s : String) (t : Option Nat)
    (h : c.fault c.calls = false) (hs : c.store key = some ⟨Value.str s, t⟩) :
    c.SMembers key = (c.tick, Except.error Error.WrongType) := by
  unfold Client.SMembers
  simp only [h, Bool.false_eq_true, if_false, hs]

theorem SMembers_ok (c : Client) (key : String) (ms : List String)
    (h : (c.SMembers key).2 = Except.ok ms) :
    notStr (c.store key) ∧ ms = membersOf (c.store key) := by
  unfold Client.SMembers at h
  by_cases h0 : c.fault c.calls
  · simp [h0] at h
  · simp only [h0, Bool.false_eq_true, if_false] at h
    rcases hk : c.store key with _ | ⟨_ | ms', t⟩
    · simp only [hk] at h
      injection h with h
      exact ⟨fun s t => by simp, h.symm⟩
    · simp [hk] at h
    · simp only [hk] at h
      injection h with h
      exact ⟨fun s t => by simp, h.symm⟩

theorem GetRefreshToken_eq (r : Client) (token : String) :
    GetRefreshToken r token = (r.tick, (GetRefreshToken r token).2) := by
  rw [← GetRefreshToken_state r token]

/-- On a client without faults `SADD` on a key that is not a string succeeds,
adds the member and keeps the expiration. -/
theorem SAdd_nf (c : Client) (key m : String) (h : c.fault c.calls = false)
    (hs : notStr (c.store key)) :
    (c.SAdd key m).2 = none ∧ notStr ((c.SAdd key m).1.store key) ∧
      (∀ x, x ∈ membersOf ((c.SAdd key m).1.store key) ↔ x ∈ membersOf (c.store key) ∨ x = m) ∧
      ((c.SAdd key m).1.store key).bind Entry.ttl = (c.store key).bind Entry.ttl := by
  unfold Client.SAdd
  simp only [h, Bool.false_eq_true, if_false]
  rcases hk : c.store key with _ | ⟨_ | ms, t⟩
  · simp [membersOf, notStr]
  · exact absurd hk (hs _ _)
  · simp only [put_store, if_true, membersOf, Option.bind, true_and]
    refine ⟨fun s t => by simp, fun x => ?_, trivial⟩
    by_cases hm : m ∈ ms
    · simp only [addMember, hm, if_true]
      constructor
      · exact Or.inl
      · rintro (h1 | rfl)
        · exact h1
        · exact hm
    · simp [addMember, hm]

/-- On a client without faults the loop that rebuilds a set succeeds; it adds
the members of the snapshot other than `token`, keeps the expiration the key had
when the loop started and touches no other key. -/
theorem reAdd_nf (key token : String) (ts : List String) (r : Client)
    (hf : ∀ n, r.fault n = false) (hs : notStr (r.store key)) :
    (reAdd r key token ts).2 = none ∧ (reAdd r key token ts).1.fault = r.fault ∧
      notStr ((reAdd r key token ts).1.store key) ∧
      (∀ k, k ≠ key → (reAdd r key token ts).1.store k = r.store k) ∧
      (∀ x, x ∈ membersOf ((reAdd r key token ts).1.store key) ↔
        x ∈ membersOf (r.store key) ∨ (x ∈ ts ∧ x ≠ token)) ∧
      ((reAdd r key token ts).1.store key).bind Entry.ttl = (r.store key).bind Entry.ttl := by
  induction ts generalizing r with
  | nil => simp [reAdd, hs]
  | cons t ts ih =>
    unfold reAdd
    by_cases ht : t = token
    · simp only [ht, ne_eq, not_true_eq_false, if_false]
      obtain ⟨i1, i2, i3, i4, i5, i6⟩ := ih r hf hs
      refine ⟨i1, i2, i3, i4, fun x => ?_, i6⟩
      rw [i5]
      constructor
      · rintro (h1 | ⟨h1, h2⟩)
        · exact Or.inl h1
        · exact Or.inr ⟨List.mem_cons_of_mem _ h1, h2⟩
      · rintro (h1 | ⟨h1, h2⟩)
        · exact Or.inl h1
        · rcases List.mem_cons.mp h1 with h3 | h3
          · exact absurd h3 h2
          · exact Or.inr ⟨h3, h2⟩
    · simp only [ne_eq, ht, not_false_eq_true, if_true]
      obtain ⟨a1, a2, a3, a4⟩ := SAdd_nf r key t (hf _) hs
      have a5 := SAdd_fault r key t
      have a6 := fun k hk => SAdd_other r key t k hk
      rcases hadd : r.SAdd key t with ⟨r1, _ | e⟩
      · rw [hadd] at a1 a2 a3 a4 a5 a6
        simp only at a1 a2 a3 a4 a5 a6 ⊢
        obtain ⟨i1, i2, i3, i4, i5, i6⟩ := ih r1 (by rw [a5]; exact hf) a2
        refine ⟨i1, by rw [i2, a5], i3, fun k hk => by rw [i4 k hk, a6 k hk], fun x => ?_,
          by rw [i6, a4]⟩
        rw [i5, a3]
        constructor
        · rintro ((h1 | rfl) | ⟨h1, h2⟩)
          · exact Or.inl h1
          · exact Or.inr ⟨List.mem_cons_self _ _, ht⟩
          · exact Or.inr ⟨List.mem_cons_of_mem _ h1, h2⟩
        · rintro (h1 | ⟨h1, h2⟩)
          · exact Or.inl (Or.inl h1)
          · rcases List.mem_cons.mp h1 with h3 | h3
            · exact Or.inl (Or.inr h3)
            · exact Or.inr ⟨h3, h2⟩
      · rw [hadd] at a1
        simp at a1

/-- Revoking a live token on a client without faults: when the key of the owner
does not hold a string, the result is that of the rebuilding loop. -/
theorem DeleteRefreshToken_live (r : Client) (token : String) (u : Int)
    (hf : ∀ n, r.fault n = false)
    (hres : (GetRefreshToken r token).2 = Except.ok u)
    (hs : notStr (r.store (userTokensKey u))) :
    DeleteRefreshToken r token =
      reAdd (afterDeletes r token u) (userTokensKey u) token
        (membersOf (r.store (userTokensKey u))) := by
  have hk := userTokensKey_ne_tokenKey u token
  unfold DeleteRefreshToken
  rw [GetRefreshToken_eq, hres]
  simp only
  rw [Del_nf _ _ (by simp [hf])]
  simp only
  have hs2 : notStr ((r.tick.tick.drop (tokenKey token)).store (userTokensKey u)) := by
    simpa [hk] using hs
  rw [SMembers_nf _ _ (by simp [hf]) hs2]
  simp only
  rw [Del_nf _ _ (by simp [hf])]
  simp [afterDeletes, hk]

/-- Revoking a live token on a client without faults fails when the key of the
owner holds a string. -/
theorem DeleteRefreshToken_wrongType (r : Client) (token : String) (u : Int)
    (hf : ∀ n, r.fault n = false)
    (hres : (GetRefreshToken r token).2 = Except.ok u) (s : String) (t : Option Nat)
    (hs : r.store (userTokensKey u) = some ⟨Value.str s, t⟩) :
    (DeleteRefreshToken r token).2 = some Error.WrongType := by
  have hk := userTokensKey_ne_tokenKey u token
  unfold DeleteRefreshToken
  rw [GetRefreshToken_eq, hres]
  simp only
  rw [Del_nf _ _ (by simp [hf])]
  simp only
  rw [SMembers_str _ _ s t (by simp [hf]) (by simpa [hk] using hs)]

/-- When `GetRefreshToken` resolves a token the stored value is a string that
parses to the result. -/
theorem GetRefreshToken_ok (r : Client) (token : String) (u : Int)
    (h : (GetRefreshToken r token).2 = Except.ok u) :
    r.fault r.calls = false ∧
      ∃ s t, r.store (tokenKey token) = some ⟨Value.str s, t⟩ ∧ ParseInt s = Except.ok u := by
  by_cases h0 : r.fault r.calls
  · simp [GetRefreshToken, Client.Get, h0] at h
  · have h0 : r.fault r.calls = false := by simpa using h0
    rw [GetRefreshToken_result r token h0] at h
    refine ⟨h0, ?_⟩
    rcases hk : r.store (tokenKey token) with _ | ⟨s | ms, t⟩
    · simp [hk] at h
    · exact ⟨s, t, rfl, by simpa [hk] using h⟩
    · simp [hk] at h

/-- The calls of `SaveRefreshToken` name two keys only. -/
theorem SaveRefreshToken_other (r : Client) (userID : Int) (token : String) (ttl : Int)
    (k : String) (h1 : k ≠ tokenKey token) (h2 : k ≠ userTokensKey userID) :
    (SaveRefreshToken r userID token ttl).1.store k = r.store k := by
  have a1 := Set_other r (tokenKey token) (FormatInt userID) ttl k h1
  rcases hset : r.Set (tokenKey token) (FormatInt userID) ttl with ⟨r1, _ | e1⟩
  · rw [hset] at a1
    have b1 := SAdd_other r1 (userTokensKey userID) token k h2
    rcases hadd : r1.SAdd (userTokensKey userID) token with ⟨r2, _ | e2⟩
    · rw [hadd] at b1
      have c1 := Expire_other r2 (userTokensKey userID) ttl k h2
      rcases hexp : r2.Expire (userTokensKey userID) ttl with ⟨r3, _ | e3⟩
      · rw [hexp] at c1
        simp only [SaveRefreshToken, hset, hadd, hexp]
        simp only at a1 b1 c1
        rw [c1, b1, a1]
      · rw [hexp] at c1
        simp only [SaveRefreshToken, hset, hadd, hexp]
        simp only at a1 b1 c1
        rw [c1, b1, a1]
    · rw [hadd] at b1
      simp only [SaveRefreshToken, hset, hadd]
      simp only at a1 b1
      rw [b1, a1]
  · rw [hset] at a1
    simp only [SaveRefreshToken, hset]
    exact a1

/-- On a client without faults the loop that deletes forward entries succeeds,
removes the key of every token of the snapshot and touches no other key. -/
theorem delTokens_nf (ts : List String) (r : Client) (hf : ∀ n, r.fault n = false) :
    (delTokens r ts).2 = none ∧ (delTokens r ts).1.fault = r.fault ∧
      (∀ t, t ∈ ts → (delTokens r ts).1.store (tokenKey t) = none) ∧
      (∀ k, (∀ t, t ∈ ts → k ≠ tokenKey t) → (delTokens r ts).1.store k = r.store k) := by
  induction ts generalizing r with
  | nil => simp [delTokens]
  | cons t ts ih =>
    unfold delTokens
    rw [Del_nf _ _ (hf _)]
    simp only
    obtain ⟨i1, i2, i3, i4⟩ := ih (r.tick.drop (tokenKey t)) (by simpa using hf)
    refine ⟨i1, by rw [i2]; rfl, fun x hx => ?_, fun k hk => ?_⟩
    · by_cases hin : x ∈ ts
      · exact i3 x hin
      · have hxt : x = t := by
          rcases List.mem_cons.mp hx with h | h
          · exact h
          · exact absurd h hin
        subst hxt
        rw [i4 _ (fun y hy h => hin (by rw [(tokenKey_inj x y).mp h]; exact hy))]
        simp
    · rw [i4 k (fun y hy => hk y (List.mem_cons_of_mem _ hy))]
      simp [hk t (List.mem_cons_self _ _)]

/-- Bulk revocation on a client without faults, when the key of the user does not
hold a string: the forward entries of the members are deleted, then the key. -/
theorem DeleteUserRefreshTokens_nf (r : Client) (u : Int) (hf : ∀ n, r.fault n = false)
    (hs : notStr (r.store (userTokensKey u))) :
    DeleteUserRefreshTokens r u =
      (((delTokens r.tick (membersOf (r.store (userTokensKey u)))).1.tick).drop
        (userTokensKey u), none) := by
  obtain ⟨d1, d2, -, -⟩ := delTokens_nf (membersOf (r.store (userTokensKey u))) r.tick
    (by simpa using hf)
  unfold DeleteUserRefreshTokens
  rw [SMembers_nf _ _ (hf _) hs]
  simp only
  rcases hd : delTokens r.tick (membersOf (r.store (userTokensKey u))) with ⟨r2, _ | e⟩
  · rw [hd] at d2
    simp only at d2 ⊢
    rw [Del_nf _ _ (by rw [d2]; exact hf _)]
  · rw [hd] at d1
    cases d1

/-- Bulk revocation on a client without faults fails when the key of the user
holds a string. -/
theorem DeleteUserRefreshTokens_wrongType (r : Client) (u : Int)
    (hf : ∀ n, r.fault n = false) (s : String) (t : Option Nat)
    (hs : r.store (userTokensKey u) = some ⟨Value.str s, t⟩) :
    (DeleteUserRefreshTokens r u).2 = some Error.WrongType := by
  unfold DeleteUserRefreshTokens
  rw [SMembers_str _ _ s t (hf _) hs]

/-! ### The state after a successful `SaveRefreshToken` -/

/-- When its three calls are not faulted and the key of the user does not hold a
string, `SaveRefreshToken` succeeds and the client is `afterSave`. -/
theorem SaveRefreshToken_nf (r : Client) (userID : Int) (token : String) (ttl : Int)
    (h0 : r.fault r.calls = false) (h1 : r.fault (r.calls + 1) = false)
    (h2 : r.fault (r.calls + 2) = false) (hs : notStr (r.store (userTokensKey userID))) :
    SaveRefreshToken r userID token ttl = (afterSave r userID token ttl, none) := by
  have hk := userTokensKey_ne_tokenKey userID token
  unfold SaveRefreshToken Client.Set
  simp only [h0, Bool.false_eq_true, if_false]
  unfold Client.SAdd
  simp only [put_fault, tick_fault, put_calls, tick_calls, h1, Bool.false_eq_true, if_false,
    put_store, hk, tick_store]
  rcases hu : r.store (userTokensKey userID) with _ | ⟨_ | ms, e⟩
  · simp only
    unfold Client.Expire
    simp only [put_fault, tick_fault, put_calls, tick_calls, h2, Bool.false_eq_true, if_false,
      put_store, if_true]
    simp only [afterSave, afterSetAdd, hu, membersOf, addMember, List.not_mem_nil, if_false,
      List.nil_append, Option.bind]
    by_cases hz : formatSec ttl ≤ 0 <;> simp only [hz, if_true, if_false]
  · exact absurd hu (hs _ _)
  · simp only
    unfold Client.Expire
    simp only [put_fault, tick_fault, put_calls, tick_calls, h2, Bool.false_eq_true, if_false,
      put_store, if_true]
    simp only [afterSave, afterSetAdd, hu, membersOf, Option.bind]
    by_cases hz : formatSec ttl ≤ 0 <;> simp only [hz, if_true, if_false]

/-- A successful `SaveRefreshToken` made three calls that were not faulted, found
no string under the key of the user, and left the client `afterSave`. -/
theorem SaveRefreshToken_ok (r : Client) (userID : Int) (token : String) (ttl : Int)
    (h : (SaveRefreshToken r userID token ttl).2 = none) :
    (r.fault r.calls = false ∧ r.fault (r.calls + 1) = false ∧ r.fault (r.calls + 2) = false) ∧
      notStr (r.store (userTokensKey userID)) ∧
      SaveRefreshToken r userID token ttl = (afterSave r userID token ttl, none) := by
  have hk := userTokensKey_ne_tokenKey userID token
  have h0 : r.fault r.calls = false := by
    by_cases h0 : r.fault r.calls
    · simp [SaveRefreshToken, Client.Set, h0] at h
    · simpa using h0
  have h1 : r.fault (r.calls + 1) = false := by
    by_cases h1 : r.fault (r.calls + 1)
    · simp [SaveRefreshToken, Client.Set, Client.SAdd, h0, h1] at h
    · simpa using h1
  have hs : notStr (r.store (userTokensKey userID)) := by
    intro s e hu
    simp [SaveRefreshToken, Client.Set, Client.SAdd, h0, h1, hk, hu] at h
  have h2 : r.fault (r.calls + 2) = false := by
    by_cases h2 : r.fault (r.calls + 2)
    · rcases hu : r.store (userTokensKey userID) with _ | ⟨_ | ms, e⟩
      · simp [SaveRefreshToken, Client.Set, Client.SAdd, Client.Expire, h0, h1, hk, hu, h2] at h
      · exact absurd hu (hs _ _)
      · simp [SaveRefreshToken, Client.Set, Client.SAdd, Client.Expire, h0, h1, hk, hu, h2] at h
    · simpa using h2
  exact ⟨⟨h0, h1, h2⟩, hs, SaveRefreshToken_nf r userID token ttl h0 h1 h2 hs⟩

/-- The key space after a successful `SaveRefreshToken`. -/
theorem afterSave_store (r : Client) (userID : Int) (token : String) (ttl : Int) (k : String) :
    (afterSave r userID token ttl).store k =
      if k = userTokensKey userID then
        (if formatSec ttl ≤ 0 then none
         else some ⟨Value.set (addMember (membersOf (r.store (userTokensKey userID))) token),
           some ((formatSec ttl).toNat * 1000)⟩)
      else if k = tokenKey token then
        some ⟨Value.str (FormatInt userID), setExpiry (r.store (tokenKey token)) ttl⟩
      else r.store k := by
  unfold afterSave afterSetAdd
  by_cases hz : formatSec ttl ≤ 0
  · by_cases h1 : k = userTokensKey userID
    · simp [hz, h1]
    · simp [hz, h1]
  · by_cases h1 : k = userTokensKey userID
    · simp [hz, h1]
    · simp [hz, h1]

theorem afterSave_fault (r : Client) (userID : Int) (token : String) (ttl : Int) :
    (afterSave r userID token ttl).fault = r.fault := by
  unfold afterSave afterSetAdd
  split <;> rfl

theorem formatSec_pos (ttl : Int) (h : 0 < ttl) : 0 < formatSec ttl := by
  unfold formatSec
  split
  · decide
  · rename_i h1
    have h2 : Second ≤ ttl := by
      by_contra h3
      exact h1 ⟨h, not_le.mp h3⟩
    rw [Int.tdiv_eq_ediv (le_of_lt h) (by decide)]
    unfold Second at h2 ⊢
    omega

/-- A whole number of seconds is passed to the server as it is. -/
theorem formatSec_secs (n : Nat) (h : 0 < n) : formatSec ((n : Int) * Second) = n := by
  unfold formatSec
  have h1 : ¬ (0 < (n : Int) * Second ∧ (n : Int) * Second < Second) := by
    unfold Second; omega
  rw [if_neg h1]
  exact Int.mul_tdiv_cancel _ (by decide)

theorem setExpiry_secs (old : Option Entry) (n : Nat) (h : 0 < n) :
    setExpiry old ((n : Int) * Second) = some (n * 1000) := by
  have h0 : (0 : Int) < (n : Int) * Second := by unfold Second; omega
  have h1 : usePrecise ((n : Int) * Second) = false := by
    unfold usePrecise
    have : ¬ ((n : Int) * Second < Second) := by unfold Second; omega
    simp [this, Int.mul_tmod_left]
  simp [setExpiry, h0, h1, formatSec_secs n h]

/-! ## The claims -/

/-- C1 (round trip).  For every cache state, every `int64` user identifier,
every token and every positive `ttl`: when `SaveRefreshToken` succeeds and the
cache call of the lookup that follows is not faulted, `GetRefreshToken` of the
same token returns exactly the user identifier, with no error. -/
theorem C1_roundtrip (r : Client) (userID : Int) (token : String) (ttl : Int)
    (hid : isInt64 userID) (_httl : 0 < ttl)
    (hsave : (SaveRefreshToken r userID token ttl).2 = none)
    (hget : r.fault (r.calls + 3) = false) :
    (GetRefreshToken (SaveRefreshToken r userID token ttl).1 token).2 = Except.ok userID := by
  obtain ⟨hf, hc, e, he⟩ := SaveRefreshToken_forward r userID token ttl hsave
  rw [GetRefreshToken_result _ _ (by rw [hf, hc]; exact hget), he]
  exact ParseInt_FormatInt userID hid

/-- C1, at a concrete input: user 42, token `tok-A`, one hour, on the empty
cache. -/
theorem C1_roundtrip_witness :
    (GetRefreshToken (SaveRefreshToken emptyCache 42 "tok-A" (3600 * Second)).1 "tok-A").2
      = Except.ok 42 :=
  C1_roundtrip emptyCache 42 "tok-A" (3600 * Second) (by decide) (by decide) rfl rfl

/-- C2 (single revocation touches only its token).  On a client without faults,
in every state where token `A` resolves to user `u`, after a successful
`DeleteRefreshToken A`: the lookup of `A` fails with `redis.Nil`; every other
token resolves to exactly what it resolved to before; the set of `u` lists the
old members other than `A`; the set key of every other user is unchanged. -/
theorem C2_revoke_one_frame (r : Client) (A : String) (u : Int)
    (hf : ∀ n, r.fault n = false)
    (hres : (GetRefreshToken r A).2 = Except.ok u)
    (hdel : (DeleteRefreshToken r A).2 = none) :
    (GetRefreshToken (DeleteRefreshToken r A).1 A).2 = Except.error Error.Nil ∧
    (∀ B, B ≠ A →
      (GetRefreshToken (DeleteRefreshToken r A).1 B).2 = (GetRefreshToken r B).2) ∧
    (∃ old new, (r.SMembers (userTokensKey u)).2 = Except.ok old ∧
      ((DeleteRefreshToken r A).1.SMembers (userTokensKey u)).2 = Except.ok new ∧
      ∀ x, x ∈ new ↔ x ∈ old ∧ x ≠ A) ∧
    (∀ v, isInt64 v → v ≠ u →
      (DeleteRefreshToken r A).1.store (userTokensKey v) = r.store (userTokensKey v)) := by
  obtain ⟨-, s, t, hst, hparse⟩ := GetRefreshToken_ok r A u hres
  have hu : isInt64 u := ParseInt_isInt64 s u hparse
  have hs : notStr (r.store (userTokensKey u)) := by
    intro s' t' h'
    rw [DeleteRefreshToken_wrongType r A u hf hres s' t' h'] at hdel
    cases hdel
  have hk := tokenKey_ne_userTokensKey A u
  have hf0 : ∀ n, (afterDeletes r A u).fault n = false := by
    intro n; simpa [afterDeletes] using hf n
  have hs0 : notStr ((afterDeletes r A u).store (userTokensKey u)) := by
    intro s' t'; simp [afterDeletes]
  obtain ⟨-, b2, b3, b4, b5, -⟩ :=
    reAdd_nf (userTokensKey u) A (membersOf (r.store (userTokensKey u))) _ hf0 hs0
  rw [DeleteRefreshToken_live r A u hf hres hs]
  have hf1 : ∀ n, (reAdd (afterDeletes r A u) (userTokensKey u) A
      (membersOf (r.store (userTokensKey u)))).1.fault n = false := by
    intro n; rw [b2]; exact hf0 n
  refine ⟨?_, ?_, ?_, ?_⟩
  · rw [GetRefreshToken_result _ _ (hf1 _), b4 _ hk]
    simp [afterDeletes, hk]
  · intro B hB
    have hBA : tokenKey B ≠ tokenKey A := fun h => hB ((tokenKey_inj B A).mp h)
    rw [GetRefreshToken_result _ _ (hf1 _), GetRefreshToken_result _ _ (hf _),
      b4 _ (tokenKey_ne_userTokensKey B u)]
    simp [afterDeletes, hBA, tokenKey_ne_userTokensKey B u]
  · refine ⟨membersOf (r.store (userTokensKey u)),
      membersOf ((reAdd (afterDeletes r A u) (userTokensKey u) A
        (membersOf (r.store (userTokensKey u)))).1.store (userTokensKey u)), ?_, ?_, ?_⟩
    · rw [SMembers_nf _ _ (hf _) hs]
    · rw [SMembers_nf _ _ (hf1 _) b3]
    · intro x
      rw [b5]
      simp [afterDeletes, membersOf]
  · intro v hv hvu
    have hne : userTokensKey v ≠ userTokensKey u :=
      fun h => hvu ((userTokensKey_inj v u hv hu).mp h)
    rw [b4 _ hne]
    simp [afterDeletes, hne, userTokensKey_ne_tokenKey v A]

/-- C2, the scenario of the specification: after `tok-A` and `tok-B` were issued
to user 42 and `tok-A` was revoked, `tok-A` is not found and `tok-B` resolves to
42. -/
theorem C2_revoke_one_frame_witness :
    (GetRefreshToken (DeleteRefreshToken twoTokens "tok-A").1 "tok-A").2
        = Except.error Error.Nil ∧
      (GetRefreshToken (DeleteRefreshToken twoTokens "tok-A").1 "tok-B").2 = Except.ok 42 :=
  have h := C2_revoke_one_frame twoTokens "tok-A" 42 (fun _ => rfl) rfl rfl
  ⟨h.1, (h.2.1 "tok-B" (by decide)).trans rfl⟩

/-- In the scenario of property P3 every listed token is owned by the user whose
set lists it. -/
theorem twoUsers_owned (w : Int) (ms : List String) (t : String) (hw : isInt64 w)
    (hms : (twoUsers.SMembers (userTokensKey w)).2 = Except.ok ms) (ht : t ∈ ms) :
    (GetRefreshToken twoUsers t).2 = Except.ok w := by
  obtain ⟨-, hms⟩ := SMembers_ok _ _ _ hms
  by_cases h1 : w = 1
  · subst h1
    have : ms = ["A"] := hms.trans rfl
    subst this
    rw [List.mem_singleton.mp ht]
    rfl
  · by_cases h2 : w = 2
    · subst h2
      have : ms = ["B"] := hms.trans rfl
      subst this
      rw [List.mem_singleton.mp ht]
      rfl
    · have k1 : userTokensKey w ≠ userTokensKey 1 :=
        fun h => h1 ((userTokensKey_inj w 1 hw (by decide)).mp h)
      have k2 : userTokensKey w ≠ userTokensKey 2 :=
        fun h => h2 ((userTokensKey_inj w 2 hw (by decide)).mp h)
      have : twoUsers.store (userTokensKey w) = none := by
        unfold twoUsers
        rw [SaveRefreshToken_other _ _ _ _ _ (userTokensKey_ne_tokenKey w "B") k2,
          SaveRefreshToken_other _ _ _ _ _ (userTokensKey_ne_tokenKey w "A") k1]
        rfl
      rw [this] at hms
      subst hms
      simp [membersOf] at ht

/-- C3 (bulk revocation is complete and isolated).  On a client without faults,
in every state where each token listed in a set of a user is owned by that user
in the forward index, and for distinct users `u` and `v`: after a successful
`DeleteUserRefreshTokens u` every token that was in the set of `u` is not found,
the set key of `u` no longer exists, every token owned by `v` still resolves to
`v`, and the set key of `v` is unchanged. -/
theorem C3_revoke_all_isolated (r : Client) (u v : Int)
    (hu : isInt64 u) (hv : isInt64 v) (huv : u ≠ v)
    (hf : ∀ n, r.fault n = false)
    (hown : ∀ (w : Int) (ms : List String) (t : String), isInt64 w →
      (r.SMembers (userTokensKey w)).2 = Except.ok ms → t ∈ ms →
        (GetRefreshToken r t).2 = Except.ok w)
    (hdel : (DeleteUserRefreshTokens r u).2 = none) :
    (∀ (ms : List String) (t : String),
      (r.SMembers (userTokensKey u)).2 = Except.ok ms → t ∈ ms →
        (GetRefreshToken (DeleteUserRefreshTokens r u).1 t).2 = Except.error Error.Nil) ∧
    (DeleteUserRefreshTokens r u).1.store (userTokensKey u) = none ∧
    (∀ t, (GetRefreshToken r t).2 = Except.ok v →
      (GetRefreshToken (DeleteUserRefreshTokens r u).1 t).2 = Except.ok v) ∧
    (DeleteUserRefreshTokens r u).1.store (userTokensKey v) = r.store (userTokensKey v) := by
  have hs : notStr (r.store (userTokensKey u)) := by
    intro s' t' h'
    rw [DeleteUserRefreshTokens_wrongType r u hf s' t' h'] at hdel
    cases hdel
  obtain ⟨-, d2, d3, d4⟩ := delTokens_nf (membersOf (r.store (userTokensKey u))) r.tick
    (by simpa using hf)
  have hmem : (r.SMembers (userTokensKey u)).2
      = Except.ok (membersOf (r.store (userTokensKey u))) := by
    rw [SMembers_nf _ _ (hf _) hs]
  rw [DeleteUserRefreshTokens_nf r u hf hs]
  have hf1 : ∀ n, (((delTokens r.tick (membersOf (r.store (userTokensKey u)))).1.tick).drop
      (userTokensKey u)).fault n = false := by
    intro n; simp only [drop_fault, tick_fault, d2]; exact hf n
  refine ⟨?_, ?_, ?_, ?_⟩
  · intro ms t hms ht
    rw [hmem] at hms
    injection hms with hms
    subst hms
    rw [GetRefreshToken_result _ _ (hf1 _)]
    simp [tokenKey_ne_userTokensKey t u, d3 t ht]
  · simp
  · intro t ht
    have hnot : ∀ x, x ∈ membersOf (r.store (userTokensKey u)) → tokenKey t ≠ tokenKey x := by
      intro x hx h
      have h1 := hown u _ x hu hmem hx
      rw [← (tokenKey_inj t x).mp h, ht] at h1
      injection h1 with h1
      exact huv h1.symm
    rw [GetRefreshToken_result _ _ (hf1 _)]
    rw [GetRefreshToken_result _ _ (hf _)] at ht
    simp only [drop_store, tokenKey_ne_userTokensKey t u, if_false, tick_store, d4 _ hnot]
    exact ht
  · have hne : userTokensKey v ≠ userTokensKey u :=
      fun h => huv ((userTokensKey_inj v u hv hu).mp h).symm
    simp only [drop_store, hne, if_false, tick_store]
    exact d4 _ (fun x _ => userTokensKey_ne_tokenKey v x)

/-- C3, the scenario of property P3: after token `A` was issued to user 1 and
token `B` to user 2, revoking all tokens of user 1 leaves `A` not found and `B`
resolving to user 2. -/
theorem C3_revoke_all_isolated_witness :
    (GetRefreshToken (DeleteUserRefreshTokens twoUsers 1).1 "A").2 = Except.error Error.Nil ∧
      (GetRefreshToken (DeleteUserRefreshTokens twoUsers 1).1 "B").2 = Except.ok 2 :=
  have h := C3_revoke_all_isolated twoUsers 1 2 (by decide) (by decide) (by decide)
    (fun _ => rfl) twoUsers_owned rfl
  ⟨h.1 ["A"] "A" rfl (List.mem_singleton.mpr rfl), h.2.2.1 "B" rfl⟩

/-- Revoking one token of a set that has an expiration rebuilds the set without
one: on a client without faults, when the set of the owner `u` lists `A` and
another token `B`, after `DeleteRefreshToken A` the set key exists and does not
expire. -/
theorem DeleteRefreshToken_set_persistent (r : Client) (A B : String) (u : Int)
    (ms : List String) (e : Option Nat)
    (hf : ∀ n, r.fault n = false) (hres : (GetRefreshToken r A).2 = Except.ok u)
    (hset : r.store (userTokensKey u) = some ⟨Value.set ms, e⟩)
    (hB : B ∈ ms) (hBA : B ≠ A) :
    (DeleteRefreshToken r A).2 = none ∧
      ∃ ms', (DeleteRefreshToken r A).1.store (userTokensKey u)
        = some ⟨Value.set ms', none⟩ := by
  have hs : notStr (r.store (userTokensKey u)) := by
    intro s t h; rw [hset] at h; cases h
  have hf0 : ∀ n, (afterDeletes r A u).fault n = false := by
    intro n; simpa [afterDeletes] using hf n
  have hs0 : notStr ((afterDeletes r A u).store (userTokensKey u)) := by
    intro s' t'; simp [afterDeletes]
  obtain ⟨b1, -, b3, -, b5, b6⟩ :=
    reAdd_nf (userTokensKey u) A (membersOf (r.store (userTokensKey u))) _ hf0 hs0
  rw [DeleteRefreshToken_live r A u hf hres hs]
  refine ⟨b1, ?_⟩
  have hmem := (b5 B).mpr (Or.inr ⟨by rw [hset]; exact hB, hBA⟩)
  have hnone : (afterDeletes r A u).store (userTokensKey u) = none := by simp [afterDeletes]
  rw [hnone] at b6
  rcases hk : (reAdd (afterDeletes r A u) (userTokensKey u) A
      (membersOf (r.store (userTokensKey u)))).1.store (userTokensKey u) with _ | ⟨s | ms', t⟩
  · rw [hk] at hmem; simp [membersOf] at hmem
  · exact absurd hk (b3 _ _)
  · rw [hk] at b6
    simp only [Option.bind] at b6
    exact ⟨ms', by rw [b6]⟩

/-- C4 (the expiration of the set after a single revocation), at the scenario of
the specification: the set of user 42 lists `tok-A` and `tok-B` and expires in one
hour; after a successful `DeleteRefreshToken "tok-A"` the set lists `tok-B` and
has no expiration. -/
theorem C4_set_expiry_lost :
    twoTokens.store (userTokensKey 42)
        = some ⟨Value.set ["tok-A", "tok-B"], some 3600000⟩ ∧
      (DeleteRefreshToken twoTokens "tok-A").2 = none ∧
      (DeleteRefreshToken twoTokens "tok-A").1.store (userTokensKey 42)
        = some ⟨Value.set ["tok-B"], none⟩ := by
  decide

/-- C5, as stated, fails: after token `a` was issued for 100 seconds and token `b`
for 10 seconds to the same user, the set expires in 10 seconds while `a`, which
it lists, expires in 100. -/
theorem C5_shorter_ttl_lowers_set : Issued shorterSecond ∧ ¬ I3 shorterSecond := by
  refine ⟨?_, fun h => ?_⟩
  · exact Issued.save _ 1 "b" (10 * Second)
      (Issued.save _ 1 "a" (100 * Second) Issued.empty (by decide) (by decide) rfl)
      (by decide) (by decide) rfl
  · have h1 := h 1 ["a", "b"] (some 10000) "a" "1" (some 100000) (by decide)
      (by decide) (by decide) (by decide)
    revert h1
    decide

theorem mem_addMember (ms : List String) (m x : String) :
    x ∈ addMember ms m ↔ x ∈ ms ∨ x = m := by
  unfold addMember
  by_cases hm : m ∈ ms
  · simp only [hm, if_true]
    constructor
    · exact Or.inl
    · rintro (h | rfl)
      · exact h
      · exact hm
  · simp [hm]

theorem NonDecreasingInv_save (m : Nat) (r : Client) (userID : Int) (token : String)
    (secs : Nat) (hinv : NonDecreasingInv m r) (hu : isInt64 userID) (hpos : 0 < secs)
    (hle : m ≤ secs) (hfresh : r.store (tokenKey token) = none)
    (hok : (SaveRefreshToken r userID token ((secs : Int) * Second)).2 = none) :
    NonDecreasingInv secs (SaveRefreshToken r userID token ((secs : Int) * Second)).1 := by
  obtain ⟨-, -, heq⟩ := SaveRefreshToken_ok r userID token _ hok
  obtain ⟨ha, hb⟩ := hinv
  rw [heq]
  have hfs : ¬ (formatSec ((secs : Int) * Second) ≤ 0) := by
    rw [formatSec_secs secs hpos]; omega
  have hstore : ∀ k, (afterSave r userID token ((secs : Int) * Second)).store k =
      if k = userTokensKey userID then
        some ⟨Value.set (addMember (membersOf (r.store (userTokensKey userID))) token),
          some (secs * 1000)⟩
      else if k = tokenKey token then some ⟨Value.str (FormatInt userID), some (secs * 1000)⟩
      else r.store k := by
    intro k
    rw [afterSave_store, if_neg hfs, setExpiry_secs _ secs hpos, formatSec_secs secs hpos]
    rfl
  have htok : ∀ t, (afterSave r userID token ((secs : Int) * Second)).store (tokenKey t) =
      if t = token then some ⟨Value.str (FormatInt userID), some (secs * 1000)⟩
      else r.store (tokenKey t) := by
    intro t
    rw [hstore, if_neg (tokenKey_ne_userTokensKey t userID)]
    by_cases h : t = token
    · simp [h]
    · simp [h, tokenKey_inj]
  constructor
  · intro t e he
    rw [htok] at he
    by_cases h : t = token
    · rw [if_pos h] at he
      injection he with he
      exact ⟨_, _, he.symm, le_refl _⟩
    · rw [if_neg h] at he
      obtain ⟨s, x, h1, h2⟩ := ha t e he
      exact ⟨s, x, h1, le_trans h2 (Nat.mul_le_mul_right _ hle)⟩
  · intro w e hw he
    rw [hstore] at he
    by_cases h : w = userID
    · subst h
      rw [if_pos rfl] at he
      injection he with he
      refine ⟨_, _, he.symm, fun t ht => ?_⟩
      rw [htok]
      by_cases h1 : t = token
      · rw [if_pos h1]
        exact ⟨_, _, rfl, le_refl _⟩
      · rw [if_neg h1]
        rcases (mem_addMember _ _ _).mp ht with h2 | h2
        · rcases hk : r.store (userTokensKey w) with _ | e0
          · rw [hk] at h2; simp [membersOf] at h2
          · obtain ⟨ms0, x0, h3, h4⟩ := hb w e0 hw hk
            rw [hk, h3] at h2
            obtain ⟨s, y, h5, -⟩ := h4 t h2
            obtain ⟨s', y', h6, h7⟩ := ha t _ h5
            injection h6 with h6 h6'
            injection h6' with h6'
            subst h6'
            exact ⟨s, y, h5, le_trans h7 (Nat.mul_le_mul_right _ hle)⟩
        · exact absurd h2 h1
    · have hne : userTokensKey w ≠ userTokensKey userID :=
        fun h' => h ((userTokensKey_inj w userID hw hu).mp h')
      rw [if_neg hne, if_neg (userTokensKey_ne_tokenKey w token)] at he
      obtain ⟨ms, x, h1, h2⟩ := hb w e hw he
      refine ⟨ms, x, h1, fun t ht => ?_⟩
      obtain ⟨s, y, h3, h4⟩ := h2 t ht
      have htne : t ≠ token := by
        rintro rfl
        rw [hfresh] at h3
        cases h3
      rw [htok, if_neg htne]
      exact ⟨s, y, h3, h4⟩

theorem IssuedNonDecreasing_inv (m : Nat) (r : Client) (h : IssuedNonDecreasing m r) :
    NonDecreasingInv m r := by
  induction h with
  | empty =>
    constructor
    · intro t e he; cases he
    · intro u e _ he; cases he
  | save m r userID token secs _ hu hpos hle hfresh hok ih =>
    exact NonDecreasingInv_save m r userID token secs ih hu hpos hle hfresh hok

/-- C5, amended.  In every state reachable from the empty cache by successful
`SaveRefreshToken` calls, each for a token not yet in the store and with a `ttl`
that is a whole number of seconds and not shorter than the `ttl` of the call
before, the expiration of the set of a user is at least the expiration of every
token the set lists. -/
theorem C5_I3_nondecreasing_ttl (m : Nat) (r : Client) (h : IssuedNonDecreasing m r) :
    I3 r := by
  obtain ⟨-, hb⟩ := IssuedNonDecreasing_inv m r h
  intro u ms e t s e' hu hset ht htok
  obtain ⟨ms0, x, h1, h2⟩ := hb u _ hu hset
  injection h1 with h1 h1'
  injection h1 with h1
  subst h1 h1'
  obtain ⟨s0, y, h3, h4⟩ := h2 t ht
  rw [h3] at htok
  injection htok with htok
  injection htok with _ htok
  subst htok
  exact h4

/-- C5, amended, at the scenario of the specification: `tok-A` and then `tok-B`
issued to user 42 for one hour each. -/
theorem C5_I3_nondecreasing_ttl_witness : I3 twoTokens :=
  C5_I3_nondecreasing_ttl 3600 twoTokens
    (IssuedNonDecreasing.save 3600 _ 42 "tok-B" 3600
      (IssuedNonDecreasing.save 0 _ 42 "tok-A" 3600 IssuedNonDecreasing.empty
        (by decide) (by decide) (by decide) rfl rfl)
      (by decide) (by decide) (by decide) rfl rfl)

theorem Del_fail (c : Client) (key : String) (h : c.fault c.calls = true) :
    c.Del key = (c.tick, some Error.Transient) := by
  simp [Client.Del, h]

theorem delTokens_cons (r : Client) (t : String) (ts : List String) :
    delTokens r (t :: ts) =
      match r.Del (tokenKey t) with
      | (r1, some err) => (r1, some err)
      | (r1, none) => delTokens r1 ts := rfl

/-- The loop that deletes forward entries stops at the first faulted call: the
keys of the tokens before it are removed and no other key is touched. -/
theorem delTokens_abort (pre : List String) (x : String) (post : List String) (r : Client)
    (hok : ∀ i, i < pre.length → r.fault (r.calls + i) = false)
    (hbad : r.fault (r.calls + pre.length) = true) :
    (delTokens r (pre ++ x :: post)).2 = some Error.Transient ∧
      (delTokens r (pre ++ x :: post)).1.fault = r.fault ∧
      (delTokens r (pre ++ x :: post)).1.calls = r.calls + pre.length + 1 ∧
      (∀ t, t ∈ pre → (delTokens r (pre ++ x :: post)).1.store (tokenKey t) = none) ∧
      (∀ k, (∀ t, t ∈ pre → k ≠ tokenKey t) →
        (delTokens r (pre ++ x :: post)).1.store k = r.store k) := by
  induction pre generalizing r with
  | nil =>
    simp only [List.nil_append, delTokens]
    rw [Del_fail _ _ (by simpa using hbad)]
    simp
  | cons p pre ih =>
    rw [List.cons_append, delTokens_cons, Del_nf _ _ (by simpa using hok 0 (by simp))]
    simp only
    have hok' : ∀ i, i < pre.length →
        (r.tick.drop (tokenKey p)).fault ((r.tick.drop (tokenKey p)).calls + i) = false := by
      intro i hi
      have := hok (i + 1) (by simp; omega)
      simp only [drop_fault, tick_fault, drop_calls, tick_calls]
      rw [← this]; congr 1; omega
    have hbad' : (r.tick.drop (tokenKey p)).fault
        ((r.tick.drop (tokenKey p)).calls + pre.length) = true := by
      simp only [drop_fault, tick_fault, drop_calls, tick_calls]
      rw [← hbad]; congr 1; simp; omega
    obtain ⟨i1, i2, i3, i4, i5⟩ := ih (r.tick.drop (tokenKey p)) hok' hbad'
    refine ⟨i1, by rw [i2]; rfl, by rw [i3]; simp; omega, fun t ht => ?_, fun k hk => ?_⟩
    · by_cases hin : t ∈ pre
      · exact i4 t hin
      · have htp : t = p := by
          rcases List.mem_cons.mp ht with h | h
          · exact h
          · exact absurd h hin
        subst htp
        rw [i5 _ (fun y hy h => hin (by rw [(tokenKey_inj t y).mp h]; exact hy))]
        simp
    · rw [i5 k (fun y hy => hk y (List.mem_cons_of_mem _ hy))]
      simp [hk p (List.mem_cons_self _ _)]

/-- C6, as stated, fails: user 7 holds `t1`, `t2`, `t3` and the delete of `t1`,
the first token enumerated, is the one cache call that fails.
`DeleteUserRefreshTokens` returns the error of that call and `t2` and `t3` still
resolve to user 7. -/
theorem C6_first_delete_fails_rest_survive :
    (DeleteUserRefreshTokens (failingCall threeTokens 1) 7).2 = some Error.Transient ∧
      (GetRefreshToken (DeleteUserRefreshTokens (failingCall threeTokens 1) 7).1 "t2").2
        = Except.ok 7 ∧
      (GetRefreshToken (DeleteUserRefreshTokens (failingCall threeTokens 1) 7).1 "t3").2
        = Except.ok 7 :=
  ⟨rfl, rfl, rfl⟩

/-- C6, amended.  `DeleteUserRefreshTokens` stops at the first delete that fails:
when the set of the user enumerates as `pre ++ x :: post`, the deletes of `pre`
succeed and the delete of `x` fails, the operation returns the error of that
call; every token of `pre` is then not found, every token outside `pre` (so `x`
and, the members being distinct, every token of `post`) resolves to what it
resolved to before, and the set key is left as it was. -/
theorem C6_abort_on_first_failure (r : Client) (u : Int) (pre post : List String) (x : String)
    (hset : (r.SMembers (userTokensKey u)).2 = Except.ok (pre ++ x :: post))
    (hok : ∀ i, i < pre.length → r.fault (r.calls + 1 + i) = false)
    (hbad : r.fault (r.calls + 1 + pre.length) = true)
    (hnext : r.fault (r.calls + 1 + pre.length + 1) = false) :
    (DeleteUserRefreshTokens r u).2 = some Error.Transient ∧
    (∀ t, t ∈ pre →
      (GetRefreshToken (DeleteUserRefreshTokens r u).1 t).2 = Except.error Error.Nil) ∧
    (∀ t, t ∉ pre →
      (GetRefreshToken (DeleteUserRefreshTokens r u).1 t).2 = (GetRefreshToken r t).2) ∧
    (DeleteUserRefreshTokens r u).1.store (userTokensKey u) = r.store (userTokensKey u) := by
  have h0 : r.fault r.calls = false := by
    by_cases h0 : r.fault r.calls
    · simp [Client.SMembers, h0] at hset
    · simpa using h0
  obtain ⟨hs, hms⟩ := SMembers_ok _ _ _ hset
  obtain ⟨d1, d2, d3, d4, d5⟩ := delTokens_abort pre x post r.tick
    (by simpa using hok) (by simpa using hbad)
  have heq : DeleteUserRefreshTokens r u
      = ((delTokens r.tick (pre ++ x :: post)).1, some Error.Transient) := by
    unfold DeleteUserRefreshTokens
    rw [SMembers_nf _ _ h0 hs, ← hms]
    simp only
    rcases hd : delTokens r.tick (pre ++ x :: post) with ⟨r2, _ | e⟩
    · rw [hd] at d1; cases d1
    · rw [hd] at d1
      injection d1 with d1
      subst d1
      rfl
  rw [heq]
  simp only
  have hfn : (delTokens r.tick (pre ++ x :: post)).1.fault
      (delTokens r.tick (pre ++ x :: post)).1.calls = false := by
    rw [d2, d3]
    simp only [tick_fault, tick_calls]
    exact hnext
  refine ⟨trivial, fun t ht => ?_, fun t ht => ?_, ?_⟩
  · rw [GetRefreshToken_result _ _ hfn, d4 t ht]
  · rw [GetRefreshToken_result _ _ hfn, GetRefreshToken_result _ _ h0,
      d5 _ (fun y hy h => ht (by rw [(tokenKey_inj t y).mp h]; exact hy))]
    rfl
  · rw [d5 _ (fun y _ => userTokensKey_ne_tokenKey u y)]
    rfl

/-- C6, amended, at a concrete input: user 7 holds `t1`, `t2`, `t3` and the delete
of `t2` fails.  The error of the call is returned, `t1` is not found, `t3` still
resolves to user 7. -/
theorem C6_abort_on_first_failure_witness :
    (DeleteUserRefreshTokens (failingCall threeTokens 2) 7).2 = some Error.Transient ∧
      (GetRefreshToken (DeleteUserRefreshTokens (failingCall threeTokens 2) 7).1 "t1").2
        = Except.error Error.Nil ∧
      (GetRefreshToken (DeleteUserRefreshTokens (failingCall threeTokens 2) 7).1 "t3").2
        = Except.ok 7 :=
  have h := C6_abort_on_first_failure (failingCall threeTokens 2) 7 ["t1"] ["t3"] "t2"
    rfl (by decide) rfl rfl
  ⟨h.1, h.2.1 "t1" (List.mem_singleton.mpr rfl),
    (h.2.2.1 "t3" (by decide)).trans rfl⟩

/-- Whatever error the lookup of `DeleteRefreshToken` returns, the operation
returns success after that one call. -/
theorem DeleteRefreshToken_error (r : Client) (token : String) (e : Error)
    (h : (GetRefreshToken r token).2 = Except.error e) :
    DeleteRefreshToken r token = (r.tick, none) := by
  unfold DeleteRefreshToken
  rw [GetRefreshToken_eq, h]

/-- C7 (a transient failure is not "token not found"), at two failing inputs.
On the scenario of the specification with the next cache call failing, the lookup
inside `DeleteRefreshToken "tok-A"` fails with a transient error, the operation
returns success, and `tok-A` still resolves to user 42.  On a store whose value
is not a decimal integer the lookup fails with a syntax error and the operation
returns success, leaving the key in place. -/
theorem C7_transient_treated_as_not_found :
    ((GetRefreshToken (failingCall twoTokens 0) "tok-A").2 = Except.error Error.Transient ∧
      (DeleteRefreshToken (failingCall twoTokens 0) "tok-A").2 = none ∧
      (GetRefreshToken (DeleteRefreshToken (failingCall twoTokens 0) "tok-A").1 "tok-A").2
        = Except.ok 42) ∧
    ((GetRefreshToken notDecimal "bad").2 = Except.error Error.ErrSyn ∧
      (DeleteRefreshToken notDecimal "bad").2 = none ∧
      (DeleteRefreshToken notDecimal "bad").1.store (tokenKey "bad")
        = some ⟨Value.str "abc", none⟩) :=
  ⟨⟨rfl, rfl, rfl⟩, ⟨rfl, rfl, rfl⟩⟩

/-- C8 (idempotent revoke).  On a client without faults, for every token, live or
absent, whose owner's key (when the token is live) does not hold a string, so
that no cache call is refused: two `DeleteRefreshToken` calls in sequence both
return success, and the second makes its lookup and nothing else, so it leaves
the key space exactly as the first left it. -/
theorem C8_idempotent_revoke (r : Client) (t : String)
    (hf : ∀ n, r.fault n = false)
    (hty : ∀ u, (GetRefreshToken r t).2 = Except.ok u → notStr (r.store (userTokensKey u))) :
    (DeleteRefreshToken r t).2 = none ∧
    DeleteRefreshToken (DeleteRefreshToken r t).1 t = ((DeleteRefreshToken r t).1.tick, none) ∧
    (DeleteRefreshToken (DeleteRefreshToken r t).1 t).1.store
      = (DeleteRefreshToken r t).1.store := by
  rcases hres : (GetRefreshToken r t).2 with e | u
  · have h1 := DeleteRefreshToken_error r t e hres
    have h2 : (GetRefreshToken r.tick t).2 = Except.error e := by
      rw [GetRefreshToken_result _ _ (by simpa using hf _)]
      rw [GetRefreshToken_result _ _ (hf _)] at hres
      exact hres
    rw [h1]
    simp only
    rw [DeleteRefreshToken_error r.tick t e h2]
    exact ⟨trivial, rfl, rfl⟩
  · have hs := hty u hres
    have hf0 : ∀ n, (afterDeletes r t u).fault n = false := by
      intro n; simpa [afterDeletes] using hf n
    have hs0 : notStr ((afterDeletes r t u).store (userTokensKey u)) := by
      intro s' t'; simp [afterDeletes]
    obtain ⟨b1, b2, -, b4, -, -⟩ :=
      reAdd_nf (userTokensKey u) t (membersOf (r.store (userTokensKey u))) _ hf0 hs0
    rw [DeleteRefreshToken_live r t u hf hres hs]
    have h2 : (GetRefreshToken (reAdd (afterDeletes r t u) (userTokensKey u) t
        (membersOf (r.store (userTokensKey u)))).1 t).2 = Except.error Error.Nil := by
      rw [GetRefreshToken_result _ _ (by rw [b2]; exact hf0 _),
        b4 _ (tokenKey_ne_userTokensKey t u)]
      simp [afterDeletes, tokenKey_ne_userTokensKey t u]
    rw [DeleteRefreshToken_error _ t _ h2]
    exact ⟨b1, rfl, rfl⟩

/-- C8, at the scenario of the specification: revoking `tok-A` twice. -/
theorem C8_idempotent_revoke_witness :
    (DeleteRefreshToken twoTokens "tok-A").2 = none ∧
    DeleteRefreshToken (DeleteRefreshToken twoTokens "tok-A").1 "tok-A"
      = ((DeleteRefreshToken twoTokens "tok-A").1.tick, none) ∧
    (DeleteRefreshToken (DeleteRefreshToken twoTokens "tok-A").1 "tok-A").1.store
      = (DeleteRefreshToken twoTokens "tok-A").1.store :=
  C8_idempotent_revoke twoTokens "tok-A" (fun _ => rfl) (fun u h => by
    have hu : Except.ok 42 = (Except.ok u : Except Error Int) := h
    injection hu with hu
    subst hu
    intro s e hc
    have hset : twoTokens.store (userTokensKey 42)
        = some ⟨Value.set ["tok-A", "tok-B"], some 3600000⟩ := by decide
    rw [hset] at hc
    cases hc)

theorem GetRefreshToken_forwardOf (r : Client) (token : String) (h : r.fault r.calls = false) :
    (GetRefreshToken r token).2 = forwardOf (r.store (tokenKey token)) := by
  rw [GetRefreshToken_result r token h]
  rcases r.store (tokenKey token) with _ | ⟨_ | _, _⟩ <;> rfl

theorem listed_iff (r : Client) (key t : String) (h : r.fault r.calls = false) :
    (∃ ms, (r.SMembers key).2 = Except.ok ms ∧ t ∈ ms) ↔ t ∈ membersOf (r.store key) := by
  constructor
  · rintro ⟨ms, h1, h2⟩
    obtain ⟨-, h3⟩ := SMembers_ok _ _ _ h1
    rw [← h3]; exact h2
  · intro h1
    have hs : notStr (r.store key) := by
      intro s e hc
      rw [hc] at h1
      simp [membersOf] at h1
    exact ⟨_, by rw [SMembers_nf _ _ h hs], h1⟩

/-- Invariant I1 read on the key space, for a client whose next call is not
faulted. -/
theorem I1_iff_store (r : Client) (h : r.fault r.calls = false) :
    I1 r ↔ ∀ (t : String) (u : Int), isInt64 u →
      (t ∈ membersOf (r.store (userTokensKey u)) ↔
        forwardOf (r.store (tokenKey t)) = Except.ok u) := by
  unfold I1
  constructor
  · intro hI t u hu
    rw [← listed_iff r _ t h, ← GetRefreshToken_forwardOf r t h]
    exact hI t u hu
  · intro hI t u hu
    rw [listed_iff r _ t h, GetRefreshToken_forwardOf r t h]
    exact hI t u hu

theorem I1_emptyCache : I1 emptyCache := by
  rw [I1_iff_store _ rfl]
  intro t u _
  simp [emptyCache, membersOf, forwardOf]

theorem forwardOf_isInt64 (o : Option Entry) (u : Int) (h : forwardOf o = Except.ok u) :
    isInt64 u := by
  rcases o with _ | ⟨s | ms, e⟩
  · cases h
  · exact ParseInt_isInt64 s u h
  · cases h

/-- A successful `SaveRefreshToken` with a positive `ttl`, for a token that is not
in the store, preserves I1. -/
theorem I1_save (r : Client) (hf : ∀ n, r.fault n = false) (hI : I1 r)
    (u : Int) (t : String) (ttl : Int) (hu : isInt64 u) (httl : 0 < ttl)
    (hfresh : (GetRefreshToken r t).2 = Except.error Error.Nil)
    (hok : (SaveRefreshToken r u t ttl).2 = none) :
    I1 (SaveRefreshToken r u t ttl).1 := by
  obtain ⟨-, -, heq⟩ := SaveRefreshToken_ok r u t ttl hok
  rw [heq]
  rw [I1_iff_store _ (hf _)] at hI
  rw [GetRefreshToken_forwardOf _ _ (hf _)] at hfresh
  rw [I1_iff_store _ (by rw [afterSave_fault]; exact hf _)]
  have hfs : ¬ (formatSec ttl ≤ 0) := not_le.mpr (formatSec_pos ttl httl)
  intro x w hw
  simp only [afterSave_store, hfs, if_false, tokenKey_ne_userTokensKey x u, tokenKey_inj]
  by_cases hx : x = t
  · subst hx
    simp only [if_true, forwardOf, ParseInt_FormatInt u hu]
    by_cases hwu : w = u
    · subst hwu
      simp [membersOf, mem_addMember]
    · have hne : userTokensKey w ≠ userTokensKey u :=
        fun h => hwu ((userTokensKey_inj w u hw hu).mp h)
      simp only [hne, if_false, userTokensKey_ne_tokenKey w x]
      rw [hI x w hw, hfresh]
      constructor
      · intro h; cases h
      · intro h
        injection h with h
        exact absurd h.symm hwu
  · simp only [hx, if_false]
    by_cases hwu : w = u
    · subst hwu
      simp only [if_true, membersOf, mem_addMember, hx, or_false]
      exact hI x w hw
    · have hne : userTokensKey w ≠ userTokensKey u :=
        fun h => hwu ((userTokensKey_inj w u hw hu).mp h)
      simp only [hne, if_false, userTokensKey_ne_tokenKey w t]
      exact hI x w hw

/-- A successful `DeleteRefreshToken` preserves I1. -/
theorem I1_delete (r : Client) (hf : ∀ n, r.fault n = false) (hI : I1 r) (t : String)
    (hok : (DeleteRefreshToken r t).2 = none) :
    I1 (DeleteRefreshToken r t).1 := by
  rcases hres : (GetRefreshToken r t).2 with e | u
  · rw [DeleteRefreshToken_error r t e hres]
    rw [I1_iff_store _ (hf _)] at hI
    rw [I1_iff_store _ (by simpa using hf _)]
    exact hI
  · have hs : notStr (r.store (userTokensKey u)) := by
      intro s' t' h'
      rw [DeleteRefreshToken_wrongType r t u hf hres s' t' h'] at hok
      cases hok
    have hf0 : ∀ n, (afterDeletes r t u).fault n = false := by
      intro n; simpa [afterDeletes] using hf n
    have hs0 : notStr ((afterDeletes r t u).store (userTokensKey u)) := by
      intro s' t'; simp [afterDeletes]
    obtain ⟨-, b2, -, b4, b5, -⟩ :=
      reAdd_nf (userTokensKey u) t (membersOf (r.store (userTokensKey u))) _ hf0 hs0
    rw [DeleteRefreshToken_live r t u hf hres hs]
    rw [I1_iff_store _ (hf _)] at hI
    rw [I1_iff_store _ (by rw [b2]; exact hf0 _)]
    rw [GetRefreshToken_forwardOf _ _ (hf _)] at hres
    have hu : isInt64 u := forwardOf_isInt64 _ u hres
    have hnone : (afterDeletes r t u).store (userTokensKey u) = none := by simp [afterDeletes]
    intro x w hw
    rw [b4 _ (tokenKey_ne_userTokensKey x u)]
    have hfwd : (afterDeletes r t u).store (tokenKey x) =
        if x = t then none else r.store (tokenKey x) := by
      simp [afterDeletes, tokenKey_ne_userTokensKey x u, tokenKey_inj]
    rw [hfwd]
    by_cases hwu : w = u
    · subst hwu
      rw [b5, hnone]
      by_cases hx : x = t
      · simp [hx, membersOf, forwardOf]
      · simp only [hx, if_false, membersOf, List.not_mem_nil, false_or, ne_eq,
          not_false_eq_true, and_true]
        exact hI x w hw
    · have hne : userTokensKey w ≠ userTokensKey u :=
        fun h => hwu ((userTokensKey_inj w u hw hu).mp h)
      rw [b4 _ hne]
      have hsame : (afterDeletes r t u).store (userTokensKey w) = r.store (userTokensKey w) := by
        simp [afterDeletes, hne, userTokensKey_ne_tokenKey w t]
      rw [hsame]
      by_cases hx : x = t
      · subst hx
        simp only [if_true, forwardOf]
        rw [hI x w hw, hres]
        constructor
        · intro h
          injection h with h
          exact absurd h.symm hwu
        · intro h; cases h
      · simp only [hx, if_false]
        exact hI x w hw

/-- A successful `DeleteUserRefreshTokens` preserves I1. -/
theorem I1_deleteUser (r : Client) (hf : ∀ n, r.fault n = false) (hI : I1 r) (u : Int)
    (hu : isInt64 u) (hok : (DeleteUserRefreshTokens r u).2 = none) :
    I1 (DeleteUserRefreshTokens r u).1 := by
  have hs : notStr (r.store (userTokensKey u)) := by
    intro s' t' h'
    rw [DeleteUserRefreshTokens_wrongType r u hf s' t' h'] at hok
    cases hok
  obtain ⟨-, d2, d3, d4⟩ := delTokens_nf (membersOf (r.store (userTokensKey u))) r.tick
    (by simpa using hf)
  rw [DeleteUserRefreshTokens_nf r u hf hs]
  rw [I1_iff_store _ (hf _)] at hI
  rw [I1_iff_store _ (by simp only [drop_fault, tick_fault, d2]; exact hf _)]
  intro x w hw
  simp only [drop_store, tick_store, tokenKey_ne_userTokensKey x u, if_false]
  have hset : ∀ v, (delTokens r.tick (membersOf (r.store (userTokensKey u)))).1.store
      (userTokensKey v) = r.store (userTokensKey v) :=
    fun v => d4 _ (fun y _ => userTokensKey_ne_tokenKey v y)
  by_cases hx : x ∈ membersOf (r.store (userTokensKey u))
  · have hxu := (hI x u hu).mp hx
    rw [d3 x hx]
    by_cases hwu : w = u
    · subst hwu
      simp [membersOf, forwardOf]
    · have hne : userTokensKey w ≠ userTokensKey u :=
        fun h => hwu ((userTokensKey_inj w u hw hu).mp h)
      simp only [hne, if_false, hset, forwardOf]
      rw [hI x w hw, hxu]
      constructor
      · intro h
        injection h with h
        exact absurd h.symm hwu
      · intro h; cases h
  · rw [d4 (tokenKey x) (fun y hy h => hx (by rw [(tokenKey_inj x y).mp h]; exact hy))]
    simp only [tick_store]
    by_cases hwu : w = u
    · subst hwu
      simp only [if_true, membersOf, List.not_mem_nil, false_iff]
      exact fun h => hx ((hI x w hw).mpr h)
    · have hne : userTokensKey w ≠ userTokensKey u :=
        fun h => hwu ((userTokensKey_inj w u hw hu).mp h)
      simp only [hne, if_false, hset]
      exact hI x w hw

/-- C9, as stated, fails when `ttl` is not positive: on the empty cache, where I1
holds and token `a` is not present, `SaveRefreshToken 1 "a" 0` succeeds, and
afterwards the forward index maps `a` to user 1 while the set of user 1 does not
exist. -/
theorem C9_zero_ttl_breaks_I1 :
    I1 emptyCache ∧ (GetRefreshToken emptyCache "a").2 = Except.error Error.Nil ∧
      (SaveRefreshToken emptyCache 1 "a" 0).2 = none ∧
      ¬ I1 (SaveRefreshToken emptyCache 1 "a" 0).1 := by
  refine ⟨I1_emptyCache, rfl, rfl, fun h => ?_⟩
  obtain ⟨ms, h1, h2⟩ := (h "a" 1 (by decide)).mpr rfl
  have h3 : (Except.ok [] : Except Error (List String)) = Except.ok ms := h1
  injection h3 with h3
  subst h3
  cases h2

/-- C9, amended.  On a client without faults, from every state in which I1 holds:
each successful `SaveRefreshToken u t ttl` with a positive `ttl` and a token `t`
that is not present in the store, each successful `DeleteRefreshToken t` and each
successful `DeleteUserRefreshTokens u` yields a state in which I1 holds again. -/
theorem C9_I1_preserved (r : Client) (hf : ∀ n, r.fault n = false) (hI : I1 r) :
    (∀ (u : Int) (t : String) (ttl : Int), isInt64 u → 0 < ttl →
      (GetRefreshToken r t).2 = Except.error Error.Nil →
      (SaveRefreshToken r u t ttl).2 = none → I1 (SaveRefreshToken r u t ttl).1) ∧
    (∀ (t : String), (DeleteRefreshToken r t).2 = none → I1 (DeleteRefreshToken r t).1) ∧
    (∀ (u : Int), isInt64 u → (DeleteUserRefreshTokens r u).2 = none →
      I1 (DeleteUserRefreshTokens r u).1) :=
  ⟨fun u t ttl hu httl hfresh hok => I1_save r hf hI u t ttl hu httl hfresh hok,
    fun t hok => I1_delete r hf hI t hok,
    fun u hu hok => I1_deleteUser r hf hI u hu hok⟩

/-- C9, amended, at a concrete input: I1 holds after `tok-A` is issued to user 42
for one hour on the empty cache. -/
theorem C9_I1_preserved_witness :
    I1 (SaveRefreshToken emptyCache 42 "tok-A" (3600 * Second)).1 :=
  (C9_I1_preserved emptyCache (fun _ => rfl) I1_emptyCache).1 42 "tok-A" (3600 * Second)
    (by decide) (by decide) rfl rfl

/-- C10, as stated, fails: on the empty cache `SaveRefreshToken` with `ttl = 0`
succeeds and stores the forward entry, without expiration; so does
`SaveRefreshToken` for the user identifier `-5` with a `ttl` of one hour. -/
theorem C10_non_positive_arguments_accepted :
    ((SaveRefreshToken emptyCache 42 "tok" 0).2 = none ∧
      (SaveRefreshToken emptyCache 42 "tok" 0).1.store (tokenKey "tok")
        = some ⟨Value.str "42", none⟩) ∧
    ((SaveRefreshToken emptyCache (-5) "tok" (3600 * Second)).2 = none ∧
      (SaveRefreshToken emptyCache (-5) "tok" (3600 * Second)).1.store (tokenKey "tok")
        = some ⟨Value.str "-5", some 3600000⟩) := by
  decide

/-- C10, amended.  `SaveRefreshToken` does not validate its arguments: called with
a `ttl` or a user identifier that is not positive, it succeeds whenever its three
cache calls are not faulted and the key of the user does not hold a string, and
the forward entry of the token, with the user identifier in decimal, is then in
the store. -/
theorem C10_no_argument_validation (r : Client) (userID : Int) (token : String) (ttl : Int)
    (_hbad : ttl ≤ 0 ∨ userID ≤ 0)
    (h0 : r.fault r.calls = false) (h1 : r.fault (r.calls + 1) = false)
    (h2 : r.fault (r.calls + 2) = false) (hs : notStr (r.store (userTokensKey userID))) :
    (SaveRefreshToken r userID token ttl).2 = none ∧
      (SaveRefreshToken r userID token ttl).1.store (tokenKey token)
        = some ⟨Value.str (FormatInt userID), setExpiry (r.store (tokenKey token)) ttl⟩ := by
  rw [SaveRefreshToken_nf r userID token ttl h0 h1 h2 hs]
  refine ⟨rfl, ?_⟩
  simp only [afterSave_store, tokenKey_ne_userTokensKey token userID, if_false, if_true]

/-- C10, amended, at a concrete input: user identifier `-7` and `ttl = 0` on the
empty cache. -/
theorem C10_no_argument_validation_witness :
    (SaveRefreshToken emptyCache (-7) "tok" 0).2 = none ∧
      (SaveRefreshToken emptyCache (-7) "tok" 0).1.store (tokenKey "tok")
        = some ⟨Value.str (FormatInt (-7)), setExpiry (emptyCache.store (tokenKey "tok")) 0⟩ :=
  C10_no_argument_validation emptyCache (-7) "tok" 0 (Or.inl (by decide)) rfl rfl rfl
    (fun _ _ h => by cases h)

/-! ## The operations step by step -/

theorem saveRun_returned (userID : Int) (token : String) (expiration : Int) (n : Nat)
    (r : Client) (err : Option Error) :
    saveRun userID token expiration n (r, SavePc.returned err) = (r, SavePc.returned err) := by
  induction n with
  | zero => rfl
  | succ n ih => simpa [saveRun, saveStep] using ih

/-- The three steps of `SaveRefreshToken`, run one after the other, are the
method. -/
theorem saveRun_eq (userID : Int) (token : String) (expiration : Int) (r : Client) :
    saveRun userID token expiration 3 (r, SavePc.atSet) =
      ((SaveRefreshToken r userID token expiration).1,
        SavePc.returned (SaveRefreshToken r userID token expiration).2) := by
  simp only [saveRun, saveStep, SaveRefreshToken]
  rcases r.Set (tokenKey token) (FormatInt userID) expiration with ⟨r1, _ | e1⟩
  · simp only [saveStep]
    rcases r1.SAdd (userTokensKey userID) token with ⟨r2, _ | e2⟩
    · simp only [saveStep]
      rcases r2.Expire (userTokensKey userID) expiration with ⟨r3, _ | e3⟩ <;> rfl
    · rfl
  · rfl

theorem deleteRun_returned (token : String) (n : Nat) (r : Client) (err : Option Error) :
    deleteRun token n (r, DeletePc.returned err) = (r, DeletePc.returned err) := by
  induction n with
  | zero => rfl
  | succ n ih => simpa [deleteRun, deleteStep] using ih

/-- The steps of the loop, run one after the other, are the loop `reAdd`. -/
theorem deleteRun_reAdd (token : String) (userID : Int) (ts : List String) (r : Client) :
    deleteRun token (ts.length + 1) (r, DeletePc.atReAdd userID ts) =
      ((reAdd r (userTokensKey userID) token ts).1,
        DeletePc.returned (reAdd r (userTokensKey userID) token ts).2) := by
  induction ts generalizing r with
  | nil => rfl
  | cons t ts ih =>
    rw [List.length_cons, deleteRun]
    simp only [deleteStep, reAdd]
    by_cases ht : t = token
    · simp only [ht, ne_eq, not_true_eq_false, if_false]
      exact ih r
    · simp only [ne_eq, ht, not_false_eq_true, if_true]
      rcases r.SAdd (userTokensKey userID) t with ⟨r1, _ | e⟩
      · exact ih r1
      · exact deleteRun_returned token _ r1 (some e)

/-- The steps of `DeleteRefreshToken`, run one after the other, are the method:
enough steps end in the state and the result of the method. -/
theorem deleteRun_eq (token : String) (r : Client) :
    ∃ n, deleteRun token n (r, DeletePc.atGet) =
      ((DeleteRefreshToken r token).1, DeletePc.returned (DeleteRefreshToken r token).2) := by
  unfold DeleteRefreshToken
  rcases hg : GetRefreshToken r token with ⟨r1, e | userID⟩
  · exact ⟨1, by simp [deleteRun, deleteStep, hg]⟩
  · rcases hd : r1.Del (tokenKey token) with ⟨r2, _ | e2⟩
    · rcases hm : r2.SMembers (userTokensKey userID) with ⟨r3, e3 | tokens⟩
      · exact ⟨3, by simp [deleteRun, deleteStep, hg, hd, hm]⟩
      · rcases hs : r3.Del (userTokensKey userID) with ⟨r4, _ | e4⟩
        · refine ⟨4 + (tokens.length + 1), ?_⟩
          have h4 : deleteRun token 4 (r, DeletePc.atGet) = (r4, DeletePc.atReAdd userID tokens) := by
            simp [deleteRun, deleteStep, hg, hd, hm, hs]
          have hadd : ∀ (a b : Nat) (s : Client × DeletePc),
              deleteRun token (a + b) s = deleteRun token b (deleteRun token a s) := by
            intro a
            induction a with
            | zero => intro b s; simp [deleteRun]
            | succ a ih =>
              intro b s
              rw [Nat.succ_add_eq_add_succ, show a + b.succ = (a + b) + 1 from rfl, deleteRun,
                ih, deleteRun]
          rw [hadd, h4, deleteRun_reAdd]
          simp only [hd, hm, hs]
        · exact ⟨4, by simp [deleteRun, deleteStep, hg, hd, hm, hs]⟩
    · exact ⟨2, by simp [deleteRun, deleteStep, hg, hd]⟩

/-- When the two calls of the scenario run one after the other, in either order,
the set of user 42 ends as `t2` alone. -/
theorem race_one_after_the_other :
    ((race 42 "t2" (3600 * Second) "t1" oneToken
        (List.replicate 3 Turn.save ++ List.replicate 7 Turn.delete)).cache.SMembers
      (userTokensKey 42)).2 = Except.ok ["t2"] ∧
    ((race 42 "t2" (3600 * Second) "t1" oneToken
        (List.replicate 6 Turn.delete ++ List.replicate 3 Turn.save)).cache.SMembers
      (userTokensKey 42)).2 = Except.ok ["t2"] :=
  ⟨rfl, rfl⟩

/-- C11 (no lost update between `SaveRefreshToken` and `DeleteRefreshToken`), at a
failing interleaving.  User 42 holds the live token `t1`; `DeleteRefreshToken "t1"`
makes its lookup, its delete of the forward key and its `SMembers`, then
`SaveRefreshToken 42 "t2"` runs from start to end, then `DeleteRefreshToken`
deletes the set and adds back its snapshot without `t1`.  Both calls return
success and `t2` resolves to user 42, but the set of user 42 does not exist: it
does not list `t2`. -/
theorem C11_issue_lost_in_rebuild :
    (GetRefreshToken oneToken "t1").2 = Except.ok 42 ∧
    (race 42 "t2" (3600 * Second) "t1" oneToken snapshotThenIssue).save
      = SavePc.returned none ∧
    (race 42 "t2" (3600 * Second) "t1" oneToken snapshotThenIssue).delete
      = DeletePc.returned none ∧
    (GetRefreshToken
      (race 42 "t2" (3600 * Second) "t1" oneToken snapshotThenIssue).cache "t2").2
      = Except.ok 42 ∧
    ((race 42 "t2" (3600 * Second) "t1" oneToken snapshotThenIssue).cache.SMembers
      (userTokensKey 42)).2 = Except.ok [] ∧
    (race 42 "t2" (3600 * Second) "t1" oneToken snapshotThenIssue).cache.store
      (userTokensKey 42) = none :=
  ⟨rfl, rfl, rfl, rfl, rfl, rfl⟩

end Servora
